import Mathlib

/-!
Verification of the batching/dispatch/retry engine of `telegram_sender`
(`src/telegram_sender/core.py`, class `TelegramSender`).

The engine is shallowly embedded as pure Lean functions:

* Python dicts become association lists (`Dict`) with Python's
  replace-or-append assignment semantics (`dictSet`); `data.copy()`
  followed by `data_with_id["chat_id"] = chat_id` is modeled as
  `dictSet data "chat_id" (Val.int chatId)`, which leaves the original
  list untouched.
* Each `_send_message` call's interaction with the network and the
  Mongo audit sink is abstracted into an `Attempt` value drawn from an
  oracle `ℕ → Attempt` consumed in call order: either the HTTP post /
  json decoding raised (`Attempt.exn`), or a response arrived
  (`Attempt.resp`), carrying the HTTP status, the optional
  `error_code` field, the `parameters.retry_after` field (0 when
  absent, as in the source's `.get(..., 0)`), and whether the
  `insert_one` call into the audit sink raised.
* Wall-clock time (`time.monotonic`) is modeled by threading an
  absolute clock `now : ℚ`; the dispatch of a batch and of a retry
  wave consume externally chosen durations (`durs : ℕ → ℚ × ℚ`), and
  the two `asyncio.sleep` calls advance the clock by exactly the
  requested amount.
* `asyncio.as_completed` yields results in completion order; the model
  processes them in submission order.  All tallies are sums over the
  multiset of outcomes and the pending list is only ever inspected for
  its contents, so this fixes one representative interleaving without
  affecting any of the stated properties.

Each run is recorded as a trace of `BatchRecord`s so that temporal
claims (pauses, retry waves, pacing sleeps) can be stated about what
actually happened in program order.
-/

/-- Values stored in a Telegram API payload dict. -/
inductive Val where
  | str (s : String)
  | int (n : ℤ)
  | bool (b : Bool)
deriving DecidableEq, Repr

/-- A Python dict, as an association list in insertion order. -/
abbrev Dict := List (String × Val)

/-- Python dict lookup: the (unique) binding of a key, if present. -/
def dictGet : Dict → String → Option Val
  | [], _ => none
  | (k, v) :: rest, key => if k = key then some v else dictGet rest key

/-- Python dict assignment `d[key] = v`: replace the existing binding in
place, or append a new one.  Builds a new list, so the argument is
untouched (this is the model of `data.copy()` followed by assignment in
`_create_send_batches`). -/
def dictSet : Dict → String → Val → Dict
  | [], key, v => [(key, v)]
  | (k, w) :: rest, key, v =>
    if k = key then (key, v) :: rest else (k, w) :: dictSet rest key v

/-- One per-recipient request: the coroutine argument built by
`_create_send_batches`.  `idx` is the creation index of the underlying
`data_with_id` object (each loop iteration creates a fresh dict object,
so requests of distinct recipients are distinct objects even when their
contents coincide). -/
structure Request where
  idx : ℕ
  data : Dict
deriving DecidableEq, Repr

/-- The request built for the recipient at position `i`:
`data_with_id = data.copy(); data_with_id["chat_id"] = chat_id`. -/
def mkRequest (data : Dict) (i : ℕ) (chatId : ℤ) : Request :=
  ⟨i, dictSet data "chat_id" (Val.int chatId)⟩

/-- The requests of all recipients, in input order, numbered from `i`. -/
def mkRequests (data : Dict) : ℕ → List ℤ → List Request
  | _, [] => []
  | i, chatId :: rest => mkRequest data i chatId :: mkRequests data (i + 1) rest

/-- The decoded JSON of one Telegram API response, restricted to the
fields `_send_message` reads. -/
structure ApiResponse where
  status : ℤ
  errorCode : Option ℤ
  retryAfter : ℚ
deriving DecidableEq, Repr

/-- What the world did for one `_send_message` call: either the HTTP
post (or json decoding) raised, or a response arrived and the audit
sink insert either succeeded or raised. -/
inductive Attempt where
  | exn : Attempt
  | resp (r : ApiResponse) (sinkRaises : Bool) : Attempt
deriving DecidableEq, Repr

/-- The three delivery outcome classes of the spec. -/
inductive Outcome where
  | delivered : Outcome
  | permanentFailure : Outcome
  | rateLimited (retryAfter : ℚ) : Outcome
deriving DecidableEq, Repr

def Outcome.isDelivered : Outcome → Bool
  | .delivered => true
  | _ => false

def Outcome.isPermFail : Outcome → Bool
  | .permanentFailure => true
  | _ => false

def Outcome.isRate : Outcome → Bool
  | .rateLimited _ => true
  | _ => false

def Outcome.retryOf : Outcome → ℚ
  | .rateLimited r => r
  | _ => 0

/-- How `_send_message` classifies one attempt.  Mirrors the branch
structure of `core.py` lines 170-193: an exception anywhere in the
`try` block (post, json, or — when Mongo is in use — `insert_one`)
falls into the generic `except` and yields `(False, False)`; otherwise
a non-200 status with `error_code == 429` is a rate limit carrying the
response's `retry_after`, any other non-200 is a plain failure, and a
200 is a delivery. -/
def classify (useMongo : Bool) : Attempt → Outcome
  | .exn => .permanentFailure
  | .resp r sinkRaises =>
    if useMongo && sinkRaises then .permanentFailure
    else if r.status ≠ 200 then
      if r.errorCode = some 429 then .rateLimited r.retryAfter
      else .permanentFailure
    else .delivered

/-- The mutable instance fields `_rate_limited_messages` and
`_global_retry_after` of `TelegramSender`. -/
structure SenderState where
  rateLimited : List Request
  globalRetryAfter : ℚ
deriving DecidableEq, Repr, Inhabited

/-- `TelegramSender._send_message` (core.py lines 165-193).  Returns the
updated instance state and the `(is_success, is_429)` pair.  On a 429
the request is appended to `_rate_limited_messages` and
`_global_retry_after` is raised to the response's `retry_after`. -/
def sendMessage (useMongo : Bool) (s : SenderState) (req : Request) (att : Attempt) :
    SenderState × Bool × Bool :=
  match att with
  | .exn => (s, false, false)
  | .resp r sinkRaises =>
    if useMongo && sinkRaises then (s, false, false)
    else if r.status ≠ 200 then
      if r.errorCode = some 429 then
        ({ rateLimited := s.rateLimited ++ [req],
           globalRetryAfter := max s.globalRetryAfter r.retryAfter }, false, true)
      else (s, false, false)
    else (s, true, false)

/-- Result of processing one concurrent group of requests. -/
structure WaveResult where
  state : SenderState
  counter : ℕ
  delivered : ℕ
  non429 : ℕ
  sends : List (Request × Attempt)
deriving DecidableEq, Repr

/-- `TelegramSender._process_batch_messages` (core.py lines 195-205):
await every request of the group, incrementing `delivered` on success
and `non_429_failures` on a failure that is not a 429.  The attempt of
the `k`-th `_send_message` call of the run is `oracle k`.  The per-call
events are recorded in `sends`. -/
def processBatchMessages (useMongo : Bool) (oracle : ℕ → Attempt) :
    List Request → SenderState → ℕ → WaveResult
  | [], s, k => ⟨s, k, 0, 0, []⟩
  | req :: rest, s, k =>
    let att := oracle k
    let r := sendMessage useMongo s req att
    let w := processBatchMessages useMongo oracle rest r.1 (k + 1)
    ⟨w.state, w.counter,
      (if r.2.1 then 1 else 0) + w.delivered,
      (if !r.2.1 && !r.2.2 then 1 else 0) + w.non429,
      (req, att) :: w.sends⟩

/-- Result of `_resend_rate_limited_messages`. -/
structure ResendResult where
  state : SenderState
  counter : ℕ
  delivered : ℕ
  notDelivered : ℕ
  sends : List (Request × Attempt)
  snapshot : List Request
deriving DecidableEq, Repr

/-- `TelegramSender._resend_rate_limited_messages` (core.py lines
207-225): if nothing is pending, return `(0, 0)`; otherwise snapshot
and clear `_rate_limited_messages`, re-send the snapshot as one
concurrent group, count a second-time 429 as not delivered, and clear
the pending list again.  Note that `_global_retry_after` is *not*
cleared here: a second-time 429 observed during the wave leaves it
positive. -/
def resendRateLimitedMessages (useMongo : Bool) (oracle : ℕ → Attempt)
    (s : SenderState) (k : ℕ) : ResendResult :=
  if s.rateLimited = [] then ⟨s, k, 0, 0, [], []⟩
  else
    let msgs := s.rateLimited
    let s1 : SenderState := { s with rateLimited := [] }
    let w := processBatchMessages useMongo oracle msgs s1 k
    let second429 := w.state.rateLimited.length
    ⟨{ w.state with rateLimited := [] }, w.counter, w.delivered,
      w.non429 + second429, w.sends, msgs⟩

/-- `TelegramSender._create_send_batches` (core.py lines 152-163):
accumulate per-recipient requests and yield a batch as soon as its
length reaches `batch_size`, yielding a final partial batch if
non-empty.  `i` numbers the created request objects.  `batchSize` is
kept as an integer because the source never validates it: for a
non-positive value the test `len(batch) >= batch_size` is true after
every append, so every batch is a singleton. -/
def createSendBatchesAux (data : Dict) (batchSize : ℤ) :
    List ℤ → ℕ → List Request → List (List Request)
  | [], _, batch => if batch.isEmpty then [] else [batch]
  | chatId :: rest, i, batch =>
    let b := batch ++ [mkRequest data i chatId]
    if (b.length : ℤ) ≥ batchSize then
      b :: createSendBatchesAux data batchSize rest (i + 1) []
    else
      createSendBatchesAux data batchSize rest (i + 1) b

def createSendBatches (data : Dict) (chatIds : List ℤ) (batchSize : ℤ) :
    List (List Request) :=
  createSendBatchesAux data batchSize chatIds 0 []

/-- The pause-and-retry reaction recorded for one batch. -/
structure PauseRec where
  pauseLen : ℚ
  snapshot : List Request
  waveSends : List (Request × Attempt)
  d2 : ℕ
  nd2 : ℕ
deriving DecidableEq, Repr, Inhabited

/-- Everything observable about one iteration of the loop in
`_execute_batches`. -/
structure BatchRecord where
  sleptBefore : ℚ
  tStart : ℚ
  stateBefore : SenderState
  dispatchSends : List (Request × Attempt)
  d1 : ℕ
  n1 : ℕ
  stateAfterDispatch : SenderState
  pauseRetry : Option PauseRec
  tEnd : ℚ
  sleepAfter : ℚ
deriving DecidableEq, Repr, Inhabited

/-- One iteration of the `for batch_index, batch in enumerate(batches)`
loop of `_execute_batches` (core.py lines 234-253): sleep the pending
pacing amount, record `batch_start_time`, dispatch the batch, then, if
`_global_retry_after > 0`, sleep that long, reset it to zero, and run
the retry wave; finally compute the next pacing sleep
`max(batch_start_time + delay_between_batches - now, 0)`.  `durs idx`
supplies the wall-clock durations of the dispatch and of the retry
wave. -/
def execRound (useMongo : Bool) (oracle : ℕ → Attempt) (durs : ℕ → ℚ × ℚ)
    (minInterval : ℚ) (batch : List Request) (s : SenderState) (k : ℕ)
    (now sleepTime : ℚ) (idx : ℕ) : BatchRecord × SenderState × ℕ :=
  let slept := if sleepTime > 0 then sleepTime else 0
  let t0 := now + slept
  let w := processBatchMessages useMongo oracle batch s k
  let afterDispatch := t0 + (durs idx).1
  if 0 < w.state.globalRetryAfter then
    let pauseLen := w.state.globalRetryAfter
    let s1 : SenderState := { w.state with globalRetryAfter := 0 }
    let r := resendRateLimitedMessages useMongo oracle s1 w.counter
    let tEnd := afterDispatch + pauseLen + (durs idx).2
    (⟨slept, t0, s, w.sends, w.delivered, w.non429, w.state,
        some ⟨pauseLen, r.snapshot, r.sends, r.delivered, r.notDelivered⟩,
        tEnd, max (t0 + minInterval - tEnd) 0⟩,
      r.state, r.counter)
  else
    (⟨slept, t0, s, w.sends, w.delivered, w.non429, w.state, none,
        afterDispatch, max (t0 + minInterval - afterDispatch) 0⟩,
      w.state, w.counter)

/-- Delivered and not-delivered totals contributed by one loop
iteration (`total_delivered += d; ... += d2` and the `nd` analogues). -/
def roundDelivered (br : BatchRecord) : ℕ :=
  br.d1 + (match br.pauseRetry with | some pr => pr.d2 | none => 0)

def roundNotDelivered (br : BatchRecord) : ℕ :=
  br.n1 + (match br.pauseRetry with | some pr => pr.nd2 | none => 0)

/-- `TelegramSender._execute_batches` (core.py lines 227-254), with the
full per-iteration trace kept alongside the returned tallies. -/
def execBatchesAux (useMongo : Bool) (oracle : ℕ → Attempt) (durs : ℕ → ℚ × ℚ)
    (minInterval : ℚ) :
    List (List Request) → SenderState → ℕ → ℚ → ℚ → ℕ →
      ℕ × ℕ × List BatchRecord
  | [], _, _, _, _, _ => (0, 0, [])
  | batch :: rest, s, k, now, sleepTime, idx =>
    let r := execRound useMongo oracle durs minInterval batch s k now sleepTime idx
    let br := r.1
    let t := execBatchesAux useMongo oracle durs minInterval rest r.2.1 r.2.2
      br.tEnd br.sleepAfter (idx + 1)
    (roundDelivered br + t.1, roundNotDelivered br + t.2.1, br :: t.2.2)

/-- Result of one full run. -/
structure RunResult where
  delivered : ℕ
  notDelivered : ℕ
  trace : List BatchRecord
deriving DecidableEq, Repr

/-- `_send_messages` / the tail of `run` (core.py lines 147-150):
create the batches from the shared payload `data` and execute them,
starting from a fresh sender (`_rate_limited_messages = []`,
`_global_retry_after = 0.0`, `sleep_time = 0.0`) at clock 0. -/
def runModel (useMongo : Bool) (oracle : ℕ → Attempt) (durs : ℕ → ℚ × ℚ)
    (batchSize : ℤ) (minInterval : ℚ) (data : Dict) (chatIds : List ℤ) :
    RunResult :=
  let batches := createSendBatches data chatIds batchSize
  let t := execBatchesAux useMongo oracle durs minInterval batches ⟨[], 0⟩ 0 0 0 0
  ⟨t.1, t.2.1, t.2.2⟩

/-- All `_send_message` calls of one loop iteration, in program order,
tagged with whether they belong to the retry wave (`true`) or to the
batch dispatch (`false`). -/
def recSends (br : BatchRecord) : List (Request × Attempt × Bool) :=
  br.dispatchSends.map (fun p => (p.1, p.2, false)) ++
    (match br.pauseRetry with
     | some pr => pr.waveSends.map (fun p => (p.1, p.2, true))
     | none => [])

/-- All `_send_message` calls of a run, in program order. -/
def allSends (trace : List BatchRecord) : List (Request × Attempt × Bool) :=
  trace.flatMap recSends

/-- Number of sends of a group classified as delivered. -/
def countSucc (useMongo : Bool) (l : List (Request × Attempt)) : ℕ :=
  l.countP (fun p => (classify useMongo p.2).isDelivered)

/-- Number of sends of a group classified as non-429 failures. -/
def countPF (useMongo : Bool) (l : List (Request × Attempt)) : ℕ :=
  l.countP (fun p => (classify useMongo p.2).isPermFail)

/-- Number of sends of a group classified as rate limited. -/
def count429 (useMongo : Bool) (l : List (Request × Attempt)) : ℕ :=
  l.countP (fun p => (classify useMongo p.2).isRate)

/-- The requests of a group that were rate limited, in order: exactly
what the group appended to `_rate_limited_messages`. -/
def rlReqs (useMongo : Bool) (l : List (Request × Attempt)) : List Request :=
  (l.filter (fun p => (classify useMongo p.2).isRate)).map Prod.fst

/-- The value of `_global_retry_after` after a group of sends, given
its value `g` before: each rate-limited send raises it to that send's
`retry_after`. -/
def foldGlobal (useMongo : Bool) (g : ℚ) (l : List (Request × Attempt)) : ℚ :=
  l.foldl (fun acc p =>
    match classify useMongo p.2 with
    | .rateLimited r => max acc r
    | _ => acc) g

/-- Occurrences of a request in a list of requests. -/
def reqCount (req : Request) (l : List Request) : ℕ :=
  l.countP (fun r => r == req)

/-! ### Basic facts about the dict model -/

theorem dictGet_dictSet_self (d : Dict) (k : String) (v : Val) :
    dictGet (dictSet d k v) k = some v := by
  induction d with
  | nil => simp [dictGet, dictSet]
  | cons p rest ih =>
    obtain ⟨k', v'⟩ := p
    by_cases h : k' = k
    · subst h; simp [dictGet, dictSet]
    · simp [dictGet, dictSet, h, ih]

theorem dictGet_dictSet_ne (k key : String) (v : Val) (h : key ≠ k) :
    ∀ d : Dict, dictGet (dictSet d k v) key = dictGet d key := by
  intro d
  induction d with
  | nil => simp [dictGet, dictSet, Ne.symm h]
  | cons p rest ih =>
    obtain ⟨k', v'⟩ := p
    by_cases hk : k' = k
    · subst hk
      simp [dictGet, dictSet, Ne.symm h]
    · by_cases hk2 : k' = key
      · subst hk2
        simp [dictGet, dictSet, hk]
      · simp [dictGet, dictSet, hk, hk2, ih]

/-! ### Counting helpers -/

theorem countP_split (l : List α) (p q : α → Bool) :
    l.countP p =
      l.countP (fun a => p a && q a) + l.countP (fun a => p a && !q a) := by
  induction l with
  | nil => simp
  | cons a l ih =>
    by_cases hp : p a <;> by_cases hq : q a <;>
      simp [List.countP_cons, hp, hq, ih] <;> omega

theorem countP_imp_le (l : List α) (p q : α → Bool)
    (h : ∀ a ∈ l, p a = true → q a = true) : l.countP p ≤ l.countP q := by
  induction l with
  | nil => simp
  | cons a l ih =>
    have h2 : ∀ b ∈ l, p b = true → q b = true :=
      fun b hb => h b (List.mem_cons_of_mem a hb)
    have hle := ih h2
    by_cases hp : p a
    · have hq := h a (List.mem_cons_self a l) hp
      simp [List.countP_cons, hp, hq]; omega
    · by_cases hq : q a <;> simp [List.countP_cons, hp, hq] <;> omega

/-! ### Structure of one send and one concurrent group -/

/-- The effect of `_send_message` as a function of the outcome class. -/
def sendStep (useMongo : Bool) (s : SenderState) (req : Request) (att : Attempt) :
    SenderState × Bool × Bool :=
  match classify useMongo att with
  | .delivered => (s, true, false)
  | .permanentFailure => (s, false, false)
  | .rateLimited r =>
    ({ rateLimited := s.rateLimited ++ [req],
       globalRetryAfter := max s.globalRetryAfter r }, false, true)

theorem sendMessage_eq_sendStep (useMongo : Bool) (s : SenderState)
    (req : Request) (att : Attempt) :
    sendMessage useMongo s req att = sendStep useMongo s req att := by
  cases att with
  | exn => rfl
  | resp r sink =>
    simp only [sendMessage, sendStep, classify]
    split_ifs <;> rfl

theorem countSucc_cons (useMongo : Bool) (p : Request × Attempt)
    (l : List (Request × Attempt)) :
    countSucc useMongo (p :: l) =
      countSucc useMongo l + (if (classify useMongo p.2).isDelivered then 1 else 0) := by
  simp [countSucc, List.countP_cons]

theorem countPF_cons (useMongo : Bool) (p : Request × Attempt)
    (l : List (Request × Attempt)) :
    countPF useMongo (p :: l) =
      countPF useMongo l + (if (classify useMongo p.2).isPermFail then 1 else 0) := by
  simp [countPF, List.countP_cons]

theorem count429_cons (useMongo : Bool) (p : Request × Attempt)
    (l : List (Request × Attempt)) :
    count429 useMongo (p :: l) =
      count429 useMongo l + (if (classify useMongo p.2).isRate then 1 else 0) := by
  simp [count429, List.countP_cons]

theorem rlReqs_cons (useMongo : Bool) (p : Request × Attempt)
    (l : List (Request × Attempt)) :
    rlReqs useMongo (p :: l) =
      (if (classify useMongo p.2).isRate then [p.1] else []) ++ rlReqs useMongo l := by
  by_cases h : (classify useMongo p.2).isRate <;> simp [rlReqs, h]

theorem foldGlobal_cons (useMongo : Bool) (g : ℚ) (p : Request × Attempt)
    (l : List (Request × Attempt)) :
    foldGlobal useMongo g (p :: l) =
      foldGlobal useMongo
        (match classify useMongo p.2 with
         | .rateLimited r => max g r
         | _ => g) l := by
  rfl

/-- Trichotomy of outcomes: every send of a group is counted by exactly
one of the three classifications. -/
theorem counts_partition (useMongo : Bool) (l : List (Request × Attempt)) :
    countSucc useMongo l + countPF useMongo l + count429 useMongo l = l.length := by
  induction l with
  | nil => simp [countSucc, countPF, count429]
  | cons p l ih =>
    rw [countSucc_cons, countPF_cons, count429_cons]
    cases h : classify useMongo p.2 <;>
      simp [Outcome.isDelivered, Outcome.isPermFail, Outcome.isRate, h] <;> omega

theorem rlReqs_length (useMongo : Bool) (l : List (Request × Attempt)) :
    (rlReqs useMongo l).length = count429 useMongo l := by
  simp [rlReqs, count429, List.countP_eq_length_filter]

/-- Full characterisation of `_process_batch_messages`: the group's
sends are exactly its requests in order with oracle-supplied attempts;
`delivered` counts the successes and `non_429_failures` the non-429
failures; the rate-limited requests are appended, in order, to
`_rate_limited_messages`; and `_global_retry_after` is folded up with
each rate-limited send's `retry_after`. -/
theorem processBatch_spec (useMongo : Bool) (oracle : ℕ → Attempt) :
    ∀ (batch : List Request) (s : SenderState) (k : ℕ),
      (processBatchMessages useMongo oracle batch s k).sends.map Prod.fst = batch ∧
      (processBatchMessages useMongo oracle batch s k).counter = k + batch.length ∧
      (processBatchMessages useMongo oracle batch s k).delivered =
        countSucc useMongo (processBatchMessages useMongo oracle batch s k).sends ∧
      (processBatchMessages useMongo oracle batch s k).non429 =
        countPF useMongo (processBatchMessages useMongo oracle batch s k).sends ∧
      (processBatchMessages useMongo oracle batch s k).state.rateLimited =
        s.rateLimited ++ rlReqs useMongo (processBatchMessages useMongo oracle batch s k).sends ∧
      (processBatchMessages useMongo oracle batch s k).state.globalRetryAfter =
        foldGlobal useMongo s.globalRetryAfter
          (processBatchMessages useMongo oracle batch s k).sends ∧
      (∀ p ∈ (processBatchMessages useMongo oracle batch s k).sends, ∃ j, p.2 = oracle j) := by
  intro batch
  induction batch with
  | nil =>
    intro s k
    simp [processBatchMessages, countSucc, countPF, rlReqs, foldGlobal]
  | cons req rest ih =>
    intro s k
    simp only [processBatchMessages, sendMessage_eq_sendStep]
    cases hc : classify useMongo (oracle k) with
    | delivered =>
      simp only [sendStep, hc]
      obtain ⟨h1, h2, h3, h4, h5, h6, h7⟩ := ih s (k + 1)
      refine ⟨by simp [h1], by simp [h2]; omega, ?_, ?_, ?_, ?_, ?_⟩
      · rw [countSucc_cons]; simp [hc, Outcome.isDelivered]; omega
      · rw [countPF_cons]; simp [hc, Outcome.isPermFail, h4]
      · rw [rlReqs_cons]; simp [hc, Outcome.isRate, h5]
      · rw [foldGlobal_cons, hc]; exact h6
      · intro p hp
        rcases List.mem_cons.mp hp with hp | hp
        · exact ⟨k, by simp [hp]⟩
        · exact h7 p hp
    | permanentFailure =>
      simp only [sendStep, hc]
      obtain ⟨h1, h2, h3, h4, h5, h6, h7⟩ := ih s (k + 1)
      refine ⟨by simp [h1], by simp [h2]; omega, ?_, ?_, ?_, ?_, ?_⟩
      · rw [countSucc_cons]; simp [hc, Outcome.isDelivered, h3]
      · rw [countPF_cons]; simp [hc, Outcome.isPermFail]; omega
      · rw [rlReqs_cons]; simp [hc, Outcome.isRate, h5]
      · rw [foldGlobal_cons, hc]; exact h6
      · intro p hp
        rcases List.mem_cons.mp hp with hp | hp
        · exact ⟨k, by simp [hp]⟩
        · exact h7 p hp
    | rateLimited r =>
      simp only [sendStep, hc]
      obtain ⟨h1, h2, h3, h4, h5, h6, h7⟩ :=
        ih { rateLimited := s.rateLimited ++ [req],
             globalRetryAfter := max s.globalRetryAfter r } (k + 1)
      refine ⟨by simp [h1], by simp [h2]; omega, ?_, ?_, ?_, ?_, ?_⟩
      · rw [countSucc_cons]; simp [hc, Outcome.isDelivered, h3]
      · rw [countPF_cons]; simp [hc, Outcome.isPermFail, h4]
      · rw [rlReqs_cons]; simp [hc, Outcome.isRate]
        rw [h5]; simp
      · rw [foldGlobal_cons, hc]; exact h6
      · intro p hp
        rcases List.mem_cons.mp hp with hp | hp
        · exact ⟨k, by simp [hp]⟩
        · exact h7 p hp

/-- Full characterisation of `_resend_rate_limited_messages`: the
snapshot is the pending list, every snapshotted request is re-sent
exactly once, the pending list is empty afterwards, a second-time 429
is counted as not delivered, and `_global_retry_after` keeps any value
accumulated by second-time 429s of the wave. -/
theorem resend_spec (useMongo : Bool) (oracle : ℕ → Attempt)
    (s : SenderState) (k : ℕ) :
    (resendRateLimitedMessages useMongo oracle s k).snapshot = s.rateLimited ∧
    (resendRateLimitedMessages useMongo oracle s k).sends.map Prod.fst = s.rateLimited ∧
    (resendRateLimitedMessages useMongo oracle s k).state.rateLimited = [] ∧
    (resendRateLimitedMessages useMongo oracle s k).state.globalRetryAfter =
      foldGlobal useMongo s.globalRetryAfter
        (resendRateLimitedMessages useMongo oracle s k).sends ∧
    (resendRateLimitedMessages useMongo oracle s k).delivered =
      countSucc useMongo (resendRateLimitedMessages useMongo oracle s k).sends ∧
    (resendRateLimitedMessages useMongo oracle s k).notDelivered =
      countPF useMongo (resendRateLimitedMessages useMongo oracle s k).sends +
        count429 useMongo (resendRateLimitedMessages useMongo oracle s k).sends ∧
    (∀ p ∈ (resendRateLimitedMessages useMongo oracle s k).sends, ∃ j, p.2 = oracle j) := by
  by_cases h : s.rateLimited = []
  · simp [resendRateLimitedMessages, h, countSucc, countPF, count429, foldGlobal]
  · obtain ⟨h1, h2, h3, h4, h5, h6, h7⟩ :=
      processBatch_spec useMongo oracle s.rateLimited { s with rateLimited := [] } k
    have hre : resendRateLimitedMessages useMongo oracle s k =
        ⟨{ (processBatchMessages useMongo oracle s.rateLimited
              { s with rateLimited := [] } k).state with rateLimited := [] },
          (processBatchMessages useMongo oracle s.rateLimited
            { s with rateLimited := [] } k).counter,
          (processBatchMessages useMongo oracle s.rateLimited
            { s with rateLimited := [] } k).delivered,
          (processBatchMessages useMongo oracle s.rateLimited
            { s with rateLimited := [] } k).non429 +
            (processBatchMessages useMongo oracle s.rateLimited
              { s with rateLimited := [] } k).state.rateLimited.length,
          (processBatchMessages useMongo oracle s.rateLimited
            { s with rateLimited := [] } k).sends,
          s.rateLimited⟩ := by
      simp only [resendRateLimitedMessages, if_neg h]
    rw [hre]
    have hlen : (processBatchMessages useMongo oracle s.rateLimited
        { s with rateLimited := [] } k).state.rateLimited.length =
        count429 useMongo (processBatchMessages useMongo oracle s.rateLimited
          { s with rateLimited := [] } k).sends := by
      rw [h5]
      simp [rlReqs_length]
    exact ⟨rfl, h1, rfl, h6, h3, by rw [h4, hlen], h7⟩

/-- Full characterisation of one loop iteration of `_execute_batches`. -/
theorem execRound_spec (useMongo : Bool) (oracle : ℕ → Attempt)
    (durs : ℕ → ℚ × ℚ) (minInterval : ℚ) (batch : List Request)
    (s : SenderState) (k : ℕ) (now sleepTime : ℚ) (idx : ℕ)
    (br : BatchRecord) (s' : SenderState) (k' : ℕ)
    (h : execRound useMongo oracle durs minInterval batch s k now sleepTime idx =
      (br, s', k')) :
    br.stateBefore = s ∧
    br.sleptBefore = (if sleepTime > 0 then sleepTime else 0) ∧
    br.tStart = now + br.sleptBefore ∧
    br.dispatchSends.map Prod.fst = batch ∧
    br.d1 = countSucc useMongo br.dispatchSends ∧
    br.n1 = countPF useMongo br.dispatchSends ∧
    br.stateAfterDispatch.rateLimited =
      s.rateLimited ++ rlReqs useMongo br.dispatchSends ∧
    br.stateAfterDispatch.globalRetryAfter =
      foldGlobal useMongo s.globalRetryAfter br.dispatchSends ∧
    br.sleepAfter = max (br.tStart + minInterval - br.tEnd) 0 ∧
    (br.pauseRetry.isSome ↔ 0 < br.stateAfterDispatch.globalRetryAfter) ∧
    (∀ pr, br.pauseRetry = some pr →
      pr.pauseLen = br.stateAfterDispatch.globalRetryAfter ∧
      pr.snapshot = br.stateAfterDispatch.rateLimited ∧
      pr.waveSends.map Prod.fst = pr.snapshot ∧
      pr.d2 = countSucc useMongo pr.waveSends ∧
      pr.nd2 = countPF useMongo pr.waveSends + count429 useMongo pr.waveSends ∧
      s'.rateLimited = [] ∧
      s'.globalRetryAfter = foldGlobal useMongo 0 pr.waveSends ∧
      (∀ p ∈ pr.waveSends, ∃ j, p.2 = oracle j)) ∧
    (br.pauseRetry = none → s' = br.stateAfterDispatch) ∧
    (∀ p ∈ br.dispatchSends, ∃ j, p.2 = oracle j) := by
  obtain ⟨h1, h2, h3, h4, h5, h6, h7⟩ := processBatch_spec useMongo oracle batch s k
  simp only [execRound] at h
  by_cases hpos :
      0 < (processBatchMessages useMongo oracle batch s k).state.globalRetryAfter
  · rw [if_pos hpos] at h
    obtain ⟨hr1, hr2, hr3, hr4, hr5, hr6, hr7⟩ :=
      resend_spec useMongo oracle
        { (processBatchMessages useMongo oracle batch s k).state with globalRetryAfter := 0 }
        (processBatchMessages useMongo oracle batch s k).counter
    injection h with hbr h23
    injection h23 with hs2 hk2
    subst hbr hs2 hk2
    refine ⟨rfl, rfl, rfl, h1, h3, h4, h5, h6, rfl, by simp [hpos], ?_, ?_, h7⟩
    · intro pr hpr
      injection hpr with hpr
      subst hpr
      refine ⟨rfl, ?_, ?_, hr5, hr6, hr3, hr4, hr7⟩
      · exact hr1
      · rw [hr2, hr1]
    · intro hn
      exact absurd hn (by simp)
  · rw [if_neg hpos] at h
    injection h with hbr h23
    injection h23 with hs2 hk2
    subst hbr hs2 hk2
    refine ⟨rfl, rfl, rfl, h1, h3, h4, h5, h6, rfl, by simp [hpos], ?_, fun _ => rfl, h7⟩
    intro pr hpr
    cases hpr

/-! ### Facts about the accumulated retry-after value -/

theorem foldGlobal_ge (useMongo : Bool) :
    ∀ (l : List (Request × Attempt)) (g : ℚ), g ≤ foldGlobal useMongo g l := by
  intro l
  induction l with
  | nil => intro g; simp [foldGlobal]
  | cons p l ih =>
    intro g
    rw [foldGlobal_cons]
    cases hc : classify useMongo p.2 with
    | delivered => simp only [hc]; exact ih g
    | permanentFailure => simp only [hc]; exact ih g
    | rateLimited r =>
      simp only [hc]
      exact le_trans (le_max_left g r) (ih (max g r))

theorem foldGlobal_rate_le (useMongo : Bool) :
    ∀ (l : List (Request × Attempt)) (g : ℚ) (p : Request × Attempt) (r : ℚ),
      p ∈ l → classify useMongo p.2 = .rateLimited r → r ≤ foldGlobal useMongo g l := by
  intro l
  induction l with
  | nil => intro g p r h; simp at h
  | cons q l ih =>
    intro g p r hmem hcl
    rw [foldGlobal_cons]
    rcases List.mem_cons.mp hmem with rfl | hmem
    · rw [hcl]
      exact le_trans (le_max_right g r) (foldGlobal_ge useMongo l (max g r))
    · cases hc : classify useMongo q.2 <;> simp only [hc] <;> exact ih _ p r hmem hcl

theorem foldGlobal_no429 (useMongo : Bool) :
    ∀ (l : List (Request × Attempt)) (g : ℚ),
      count429 useMongo l = 0 → foldGlobal useMongo g l = g := by
  intro l
  induction l with
  | nil => intro g _; simp [foldGlobal]
  | cons p l ih =>
    intro g hc
    rw [count429_cons] at hc
    rw [foldGlobal_cons]
    cases hcl : classify useMongo p.2 with
    | delivered => simp only [hcl]; exact ih g (by omega)
    | permanentFailure => simp only [hcl]; exact ih g (by omega)
    | rateLimited r => simp [hcl, Outcome.isRate] at hc

/-! ### Per-send predicates over the tagged whole-run send list -/

/-- A send that the run counts into `delivered`. -/
def delPred (useMongo : Bool) (t : Request × Attempt × Bool) : Bool :=
  (classify useMongo t.2.1).isDelivered

/-- A send that the run counts into `notDelivered`: a non-429 failure
anywhere, or a 429 inside a retry wave (a second-time rate limit). -/
def ndPred (useMongo : Bool) (t : Request × Attempt × Bool) : Bool :=
  (classify useMongo t.2.1).isPermFail ||
    ((classify useMongo t.2.1).isRate && t.2.2)

theorem countP_tag_del (useMongo : Bool) (l : List (Request × Attempt)) (b : Bool) :
    ((l.map fun p => (p.1, p.2, b)).countP (delPred useMongo)) = countSucc useMongo l := by
  rw [List.countP_map]
  rfl

theorem countP_tag_nd_false (useMongo : Bool) (l : List (Request × Attempt)) :
    ((l.map fun p => (p.1, p.2, false)).countP (ndPred useMongo)) = countPF useMongo l := by
  rw [List.countP_map]
  apply List.countP_congr
  intro p _
  simp [ndPred, Function.comp, countPF]

theorem countP_tag_nd_true (useMongo : Bool) (l : List (Request × Attempt)) :
    ((l.map fun p => (p.1, p.2, true)).countP (ndPred useMongo)) =
      countPF useMongo l + count429 useMongo l := by
  induction l with
  | nil => simp [countPF, count429]
  | cons p l ih =>
    simp only [List.map_cons, List.countP_cons, ih, countPF_cons, count429_cons]
    cases hc : classify useMongo p.2 <;>
      simp [ndPred, hc, Outcome.isPermFail, Outcome.isRate, Outcome.isDelivered] <;> omega

theorem countP_tag_reqdis (req : Request) (l : List (Request × Attempt)) :
    ((l.map fun p => (p.1, p.2, false)).countP fun t => t.1 == req && !t.2.2) =
      l.countP (fun p => p.1 == req) := by
  rw [List.countP_map]
  apply List.countP_congr
  intro p _
  simp [Function.comp]

theorem countP_tag_reqdis_zero (req : Request) (l : List (Request × Attempt)) :
    ((l.map fun p => (p.1, p.2, true)).countP fun t => t.1 == req && !t.2.2) = 0 := by
  rw [List.countP_map]
  apply List.countP_eq_zero.mpr
  intro p _
  simp [Function.comp]

theorem countP_tag_reqwave (req : Request) (l : List (Request × Attempt)) :
    ((l.map fun p => (p.1, p.2, true)).countP fun t => t.1 == req && t.2.2) =
      l.countP (fun p => p.1 == req) := by
  rw [List.countP_map]
  apply List.countP_congr
  intro p _
  simp [Function.comp]

theorem countP_tag_reqwave_zero (req : Request) (l : List (Request × Attempt)) :
    ((l.map fun p => (p.1, p.2, false)).countP fun t => t.1 == req && t.2.2) = 0 := by
  rw [List.countP_map]
  apply List.countP_eq_zero.mpr
  intro p _
  simp [Function.comp]

/-! ### Soundness of the recorded trace -/

/-- Internal consistency of one recorded loop iteration: counters match
the recorded sends, the post-dispatch state is determined by the
pre-dispatch state and the dispatch outcomes, the pause-and-retry block
fires exactly when `_global_retry_after` ended up positive, its fields
are faithful, and the recorded pacing sleep follows the
`max(t0 + delay - now, 0)` formula. -/
def RecordOK (useMongo : Bool) (minInterval : ℚ) (br : BatchRecord) : Prop :=
  br.d1 = countSucc useMongo br.dispatchSends ∧
  br.n1 = countPF useMongo br.dispatchSends ∧
  br.stateAfterDispatch.rateLimited =
    br.stateBefore.rateLimited ++ rlReqs useMongo br.dispatchSends ∧
  br.stateAfterDispatch.globalRetryAfter =
    foldGlobal useMongo br.stateBefore.globalRetryAfter br.dispatchSends ∧
  (br.pauseRetry.isSome ↔ 0 < br.stateAfterDispatch.globalRetryAfter) ∧
  (∀ pr, br.pauseRetry = some pr →
    pr.pauseLen = br.stateAfterDispatch.globalRetryAfter ∧
    pr.snapshot = br.stateAfterDispatch.rateLimited ∧
    pr.waveSends.map Prod.fst = pr.snapshot ∧
    pr.d2 = countSucc useMongo pr.waveSends ∧
    pr.nd2 = countPF useMongo pr.waveSends + count429 useMongo pr.waveSends) ∧
  br.sleepAfter = max (br.tStart + minInterval - br.tEnd) 0

theorem exec_trace_sound (useMongo : Bool) (oracle : ℕ → Attempt)
    (durs : ℕ → ℚ × ℚ) (minInterval : ℚ) :
    ∀ (batches : List (List Request)) (s : SenderState) (k : ℕ)
      (now sleepTime : ℚ) (idx : ℕ) (br : BatchRecord),
      br ∈ (execBatchesAux useMongo oracle durs minInterval
        batches s k now sleepTime idx).2.2 →
      RecordOK useMongo minInterval br := by
  intro batches
  induction batches with
  | nil =>
    intro s k now st idx br hbr
    simp [execBatchesAux] at hbr
  | cons batch rest ih =>
    intro s k now st idx br hbr
    rcases hER : execRound useMongo oracle durs minInterval batch s k now st idx
      with ⟨br0, s2, k2⟩
    obtain ⟨e1, e2, e3, e4, e5, e6, e7, e8, e9, e10, e11, e12, e13⟩ :=
      execRound_spec useMongo oracle durs minInterval batch s k now st idx br0 s2 k2 hER
    simp only [execBatchesAux, hER] at hbr
    rcases List.mem_cons.mp hbr with rfl | hbr
    · refine ⟨e5, e6, ?_, ?_, e10, ?_, e9⟩
      · rw [e1]; exact e7
      · rw [e1]; exact e8
      · intro pr hpr
        obtain ⟨p1, p2, p3, p4, p5, _, _, _⟩ := e11 pr hpr
        exact ⟨p1, p2, p3, p4, p5⟩
    · exact ih s2 k2 br0.tEnd br0.sleepAfter (idx + 1) br hbr

theorem exec_head (useMongo : Bool) (oracle : ℕ → Attempt)
    (durs : ℕ → ℚ × ℚ) (minInterval : ℚ) :
    ∀ (batches : List (List Request)) (s : SenderState) (k : ℕ)
      (now sleepTime : ℚ) (idx : ℕ) (br : BatchRecord),
      (execBatchesAux useMongo oracle durs minInterval
        batches s k now sleepTime idx).2.2.get? 0 = some br →
      br.sleptBefore = (if sleepTime > 0 then sleepTime else 0) ∧
      br.tStart = now + br.sleptBefore := by
  intro batches
  cases batches with
  | nil =>
    intro s k now st idx br h
    simp [execBatchesAux] at h
  | cons batch rest =>
    intro s k now st idx br h
    rcases hER : execRound useMongo oracle durs minInterval batch s k now st idx
      with ⟨br0, s2, k2⟩
    obtain ⟨e1, e2, e3, e4, e5, e6, e7, e8, e9, e10, e11, e12, e13⟩ :=
      execRound_spec useMongo oracle durs minInterval batch s k now st idx br0 s2 k2 hER
    simp only [execBatchesAux, hER, List.get?_cons_zero] at h
    injection h with h
    subst h
    exact ⟨e2, e3⟩

theorem exec_chain (useMongo : Bool) (oracle : ℕ → Attempt)
    (durs : ℕ → ℚ × ℚ) (minInterval : ℚ) :
    ∀ (batches : List (List Request)) (s : SenderState) (k : ℕ)
      (now sleepTime : ℚ) (idx : ℕ) (i : ℕ) (br br' : BatchRecord),
      (execBatchesAux useMongo oracle durs minInterval
        batches s k now sleepTime idx).2.2.get? i = some br →
      (execBatchesAux useMongo oracle durs minInterval
        batches s k now sleepTime idx).2.2.get? (i + 1) = some br' →
      br'.sleptBefore = (if br.sleepAfter > 0 then br.sleepAfter else 0) ∧
      br'.tStart = br.tEnd + br'.sleptBefore := by
  intro batches
  induction batches with
  | nil =>
    intro s k now st idx i br br' h1 _
    simp [execBatchesAux] at h1
  | cons batch rest ih =>
    intro s k now st idx i br br' h1 h2
    rcases hER : execRound useMongo oracle durs minInterval batch s k now st idx
      with ⟨br0, s2, k2⟩
    simp only [execBatchesAux, hER] at h1 h2
    cases i with
    | zero =>
      rw [List.get?_cons_zero] at h1
      injection h1 with h1
      subst h1
      rw [List.get?_cons_succ] at h2
      exact exec_head useMongo oracle durs minInterval rest s2 k2
        br0.tEnd br0.sleepAfter (idx + 1) br' h2
    | succ i =>
      rw [List.get?_cons_succ] at h1 h2
      exact ih s2 k2 br0.tEnd br0.sleepAfter (idx + 1) i br br' h1 h2

/-! ### Run-level accounting -/

/-- When every 429 carries a strictly positive `retry_after`, each loop
iteration fully resolves the recipients of its own batch (the pending
list is empty again at the end of the iteration), so the tallies add up
to the total number of dispatched requests. -/
theorem exec_sum (useMongo : Bool) (oracle : ℕ → Attempt)
    (durs : ℕ → ℚ × ℚ) (minInterval : ℚ)
    (hpos : ∀ j r, classify useMongo (oracle j) = .rateLimited r → 0 < r) :
    ∀ (batches : List (List Request)) (s : SenderState) (k : ℕ)
      (now sleepTime : ℚ) (idx : ℕ),
      s.rateLimited = [] → 0 ≤ s.globalRetryAfter →
      (execBatchesAux useMongo oracle durs minInterval
        batches s k now sleepTime idx).1 +
        (execBatchesAux useMongo oracle durs minInterval
          batches s k now sleepTime idx).2.1 =
        batches.flatten.length := by
  intro batches
  induction batches with
  | nil => intro s k now st idx _ _; simp [execBatchesAux]
  | cons batch rest ih =>
    intro s k now st idx hrl hg
    rcases hER : execRound useMongo oracle durs minInterval batch s k now st idx
      with ⟨br0, s2, k2⟩
    obtain ⟨e1, e2, e3, e4, e5, e6, e7, e8, e9, e10, e11, e12, e13⟩ :=
      execRound_spec useMongo oracle durs minInterval batch s k now st idx br0 s2 k2 hER
    simp only [execBatchesAux, hER]
    have hdlen : br0.dispatchSends.length = batch.length := by
      rw [← e4, List.length_map]
    have hpart := counts_partition useMongo br0.dispatchSends
    cases hp : br0.pauseRetry with
    | some pr =>
      obtain ⟨p1, p2, p3, p4, p5, p6, p7, p8⟩ := e11 pr hp
      have hg2 : 0 ≤ s2.globalRetryAfter := by
        rw [p7]; exact foldGlobal_ge useMongo pr.waveSends 0
      have hrec := ih s2 k2 br0.tEnd br0.sleepAfter (idx + 1) p6 hg2
      have hwlen : pr.waveSends.length = count429 useMongo br0.dispatchSends := by
        have hsnap : pr.waveSends.length = pr.snapshot.length := by
          rw [← p3, List.length_map]
        rw [hsnap, p2, e7, hrl, List.nil_append, rlReqs_length]
      have hwpart := counts_partition useMongo pr.waveSends
      simp only [roundDelivered, roundNotDelivered, hp, List.flatten_cons,
        List.length_append]
      rw [e5, e6, p4, p5] at *
      omega
    | none =>
      have hnone : ¬ 0 < br0.stateAfterDispatch.globalRetryAfter := by
        intro hlt
        have hs := e10.mpr hlt
        rw [hp] at hs
        simp at hs
      have hc : count429 useMongo br0.dispatchSends = 0 := by
        by_contra hc
        obtain ⟨p, hpmem, hrate⟩ :=
          List.countP_pos_iff.mp (Nat.pos_of_ne_zero hc)
        obtain ⟨j, hj⟩ := e13 p hpmem
        cases hcl : classify useMongo p.2 with
        | rateLimited r =>
          have hr : 0 < r := hpos j r (by rw [← hj]; exact hcl)
          have hle : r ≤ foldGlobal useMongo s.globalRetryAfter br0.dispatchSends :=
            foldGlobal_rate_le useMongo br0.dispatchSends s.globalRetryAfter p r hpmem hcl
          rw [← e8] at hle
          exact hnone (lt_of_lt_of_le hr hle)
        | delivered => simp [hcl, Outcome.isRate] at hrate
        | permanentFailure => simp [hcl, Outcome.isRate] at hrate
      have hrlnil : rlReqs useMongo br0.dispatchSends = [] := by
        have hl := rlReqs_length useMongo br0.dispatchSends
        rw [hc] at hl
        exact List.length_eq_zero.mp hl
      have hs2 : s2 = br0.stateAfterDispatch := e12 hp
      have hs2rl : s2.rateLimited = [] := by
        rw [hs2, e7, hrl, hrlnil]
        rfl
      have hs2g : 0 ≤ s2.globalRetryAfter := by
        rw [hs2, e8]
        exact le_trans hg (foldGlobal_ge useMongo br0.dispatchSends s.globalRetryAfter)
      have hrec := ih s2 k2 br0.tEnd br0.sleepAfter (idx + 1) hs2rl hs2g
      simp only [roundDelivered, roundNotDelivered, hp, List.flatten_cons,
        List.length_append]
      rw [e5, e6] at *
      omega

/-- The returned tallies are exactly the counts of the corresponding
sends of the whole-run send list: `delivered` counts the successful
sends, `notDelivered` counts the non-429 failures plus the 429s that
happened inside a retry wave.  (A dispatch 429 whose pending entry is
never flushed is counted nowhere.) -/
theorem exec_totals (useMongo : Bool) (oracle : ℕ → Attempt)
    (durs : ℕ → ℚ × ℚ) (minInterval : ℚ) :
    ∀ (batches : List (List Request)) (s : SenderState) (k : ℕ)
      (now sleepTime : ℚ) (idx : ℕ),
      (execBatchesAux useMongo oracle durs minInterval
        batches s k now sleepTime idx).1 =
        (allSends (execBatchesAux useMongo oracle durs minInterval
          batches s k now sleepTime idx).2.2).countP (delPred useMongo) ∧
      (execBatchesAux useMongo oracle durs minInterval
        batches s k now sleepTime idx).2.1 =
        (allSends (execBatchesAux useMongo oracle durs minInterval
          batches s k now sleepTime idx).2.2).countP (ndPred useMongo) := by
  intro batches
  induction batches with
  | nil => intro s k now st idx; simp [execBatchesAux, allSends]
  | cons batch rest ih =>
    intro s k now st idx
    rcases hER : execRound useMongo oracle durs minInterval batch s k now st idx
      with ⟨br0, s2, k2⟩
    obtain ⟨e1, e2, e3, e4, e5, e6, e7, e8, e9, e10, e11, e12, e13⟩ :=
      execRound_spec useMongo oracle durs minInterval batch s k now st idx br0 s2 k2 hER
    obtain ⟨ihd, ihnd⟩ := ih s2 k2 br0.tEnd br0.sleepAfter (idx + 1)
    simp only [execBatchesAux, hER]
    have hall : allSends (br0 :: (execBatchesAux useMongo oracle durs minInterval
        rest s2 k2 br0.tEnd br0.sleepAfter (idx + 1)).2.2) =
        recSends br0 ++ allSends (execBatchesAux useMongo oracle durs minInterval
          rest s2 k2 br0.tEnd br0.sleepAfter (idx + 1)).2.2 := by
      simp [allSends]
    rw [hall]
    cases hp : br0.pauseRetry with
    | some pr =>
      obtain ⟨p1, p2, p3, p4, p5, p6, p7, p8⟩ := e11 pr hp
      constructor
      · simp only [roundDelivered, hp, recSends, List.countP_append,
          countP_tag_del]
        rw [e5, p4, ihd]
      · simp only [roundNotDelivered, hp, recSends, List.countP_append,
          countP_tag_nd_false, countP_tag_nd_true]
        rw [e6, p5, ihnd]
    | none =>
      constructor
      · simp only [roundDelivered, hp, recSends, List.countP_append,
          countP_tag_del, List.append_nil]
        rw [e5, ihd]
        omega
      · simp only [roundNotDelivered, hp, recSends, List.countP_append,
          countP_tag_nd_false, List.append_nil]
        rw [e6, ihnd]
        omega


theorem reqCount_append (req : Request) (l m : List Request) :
    reqCount req (l ++ m) = reqCount req l + reqCount req m :=
  List.countP_append _ l m

theorem reqCount_map_fst (req : Request) (l : List (Request × Attempt)) :
    reqCount req (l.map Prod.fst) = l.countP (fun p => p.1 == req) := by
  rw [reqCount, List.countP_map]
  rfl

/-- Every request of every batch is dispatched (outside retry waves)
exactly as often as it occurs among the batches. -/
theorem exec_dcount (useMongo : Bool) (oracle : ℕ → Attempt)
    (durs : ℕ → ℚ × ℚ) (minInterval : ℚ) (req : Request) :
    ∀ (batches : List (List Request)) (s : SenderState) (k : ℕ)
      (now sleepTime : ℚ) (idx : ℕ),
      (allSends (execBatchesAux useMongo oracle durs minInterval
        batches s k now sleepTime idx).2.2).countP
          (fun t => t.1 == req && !t.2.2) =
        reqCount req batches.flatten := by
  intro batches
  induction batches with
  | nil => intro s k now st idx; simp [execBatchesAux, allSends, reqCount]
  | cons batch rest ih =>
    intro s k now st idx
    rcases hER : execRound useMongo oracle durs minInterval batch s k now st idx
      with ⟨br0, s2, k2⟩
    obtain ⟨e1, e2, e3, e4, e5, e6, e7, e8, e9, e10, e11, e12, e13⟩ :=
      execRound_spec useMongo oracle durs minInterval batch s k now st idx br0 s2 k2 hER
    have hbatch : reqCount req batch =
        br0.dispatchSends.countP (fun p => p.1 == req) := by
      rw [← e4, reqCount_map_fst]
    have htail := ih s2 k2 br0.tEnd br0.sleepAfter (idx + 1)
    rw [allSends] at htail
    simp only [execBatchesAux, hER, allSends, List.flatMap_cons, List.flatten_cons]
    rw [List.countP_append, htail, reqCount_append]
    cases hp : br0.pauseRetry with
    | some pr =>
      simp only [recSends, hp, List.countP_append, countP_tag_reqdis,
        countP_tag_reqdis_zero]
      rw [hbatch]
      omega
    | none =>
      simp only [recSends, hp, List.countP_append, countP_tag_reqdis,
        List.append_nil]
      rw [hbatch]

/-- Every request is re-sent inside retry waves at most as often as it
occurs among the batches plus its occurrences in the initial pending
list. -/
theorem exec_wcount (useMongo : Bool) (oracle : ℕ → Attempt)
    (durs : ℕ → ℚ × ℚ) (minInterval : ℚ) (req : Request) :
    ∀ (batches : List (List Request)) (s : SenderState) (k : ℕ)
      (now sleepTime : ℚ) (idx : ℕ),
      (allSends (execBatchesAux useMongo oracle durs minInterval
        batches s k now sleepTime idx).2.2).countP
          (fun t => t.1 == req && t.2.2) ≤
        reqCount req batches.flatten + reqCount req s.rateLimited := by
  intro batches
  induction batches with
  | nil => intro s k now st idx; simp [execBatchesAux, allSends]
  | cons batch rest ih =>
    intro s k now st idx
    rcases hER : execRound useMongo oracle durs minInterval batch s k now st idx
      with ⟨br0, s2, k2⟩
    obtain ⟨e1, e2, e3, e4, e5, e6, e7, e8, e9, e10, e11, e12, e13⟩ :=
      execRound_spec useMongo oracle durs minInterval batch s k now st idx br0 s2 k2 hER
    have hrlle : reqCount req (rlReqs useMongo br0.dispatchSends) ≤ reqCount req batch := by
      rw [← e4, rlReqs, reqCount_map_fst, reqCount_map_fst]
      exact (List.filter_sublist br0.dispatchSends).countP_le _
    have htail := ih s2 k2 br0.tEnd br0.sleepAfter (idx + 1)
    rw [allSends] at htail
    simp only [execBatchesAux, hER, allSends, List.flatMap_cons, List.flatten_cons]
    rw [List.countP_append, reqCount_append]
    cases hp : br0.pauseRetry with
    | some pr =>
      obtain ⟨p1, p2, p3, p4, p5, p6, p7, p8⟩ := e11 pr hp
      have hwave : pr.waveSends.countP (fun p => p.1 == req) =
          reqCount req s.rateLimited +
            reqCount req (rlReqs useMongo br0.dispatchSends) := by
        rw [← reqCount_map_fst, p3, p2, e7, reqCount_append]
      have htail2 := htail
      rw [p6] at htail2
      have hrl0 : reqCount req ([] : List Request) = 0 := by simp [reqCount]
      rw [hrl0] at htail2
      simp only [recSends, hp, List.countP_append, countP_tag_reqwave,
        countP_tag_reqwave_zero]
      rw [hwave]
      omega
    | none =>
      have hs2 : s2 = br0.stateAfterDispatch := e12 hp
      have hs2rl : reqCount req s2.rateLimited =
          reqCount req s.rateLimited +
            reqCount req (rlReqs useMongo br0.dispatchSends) := by
        rw [hs2, e7, reqCount_append]
      rw [hs2rl] at htail
      simp only [recSends, hp, List.countP_append, countP_tag_reqwave_zero,
        List.append_nil]
      omega

/-- Every send of the run is a request of one of the batches or of the
initial pending list. -/
theorem exec_prov (useMongo : Bool) (oracle : ℕ → Attempt)
    (durs : ℕ → ℚ × ℚ) (minInterval : ℚ) :
    ∀ (batches : List (List Request)) (s : SenderState) (k : ℕ)
      (now sleepTime : ℚ) (idx : ℕ),
      ∀ t ∈ allSends (execBatchesAux useMongo oracle durs minInterval
        batches s k now sleepTime idx).2.2,
        t.1 ∈ batches.flatten ∨ t.1 ∈ s.rateLimited := by
  intro batches
  induction batches with
  | nil => intro s k now st idx t ht; simp [execBatchesAux, allSends] at ht
  | cons batch rest ih =>
    intro s k now st idx t ht
    rcases hER : execRound useMongo oracle durs minInterval batch s k now st idx
      with ⟨br0, s2, k2⟩
    obtain ⟨e1, e2, e3, e4, e5, e6, e7, e8, e9, e10, e11, e12, e13⟩ :=
      execRound_spec useMongo oracle durs minInterval batch s k now st idx br0 s2 k2 hER
    simp only [execBatchesAux, hER, allSends, List.flatMap_cons] at ht
    simp only [List.flatten_cons]
    have hdis : ∀ p ∈ br0.dispatchSends, (p : Request × Attempt).1 ∈ batch := by
      intro p hpmem
      rw [← e4]
      exact List.mem_map_of_mem Prod.fst hpmem
    rcases List.mem_append.mp ht with hrec | htl
    · rw [recSends] at hrec
      rcases List.mem_append.mp hrec with hd | hw
      · obtain ⟨p, hpmem, hpeq⟩ := List.mem_map.mp hd
        left
        apply List.mem_append_left
        rw [← hpeq]
        exact hdis p hpmem
      · cases hp : br0.pauseRetry with
        | none => rw [hp] at hw; simp at hw
        | some pr =>
          rw [hp] at hw
          simp only at hw
          obtain ⟨p1, p2, p3, p4, p5, p6, p7, p8⟩ := e11 pr hp
          obtain ⟨p, hpmem, hpeq⟩ := List.mem_map.mp hw
          have hfst : t.1 ∈ pr.waveSends.map Prod.fst := by
            rw [← hpeq]
            exact List.mem_map_of_mem Prod.fst hpmem
          rw [p3, p2, e7] at hfst
          rcases List.mem_append.mp hfst with hrl | hnew
          · right; exact hrl
          · left
            apply List.mem_append_left
            obtain ⟨q, hqmem, hqeq⟩ := List.mem_map.mp hnew
            rw [← hqeq]
            exact hdis q (List.mem_of_mem_filter hqmem)
    · rcases ih s2 k2 br0.tEnd br0.sleepAfter (idx + 1) t htl with hfl | hpend
      · left; exact List.mem_append_right batch hfl
      · cases hp : br0.pauseRetry with
        | some pr =>
          obtain ⟨p1, p2, p3, p4, p5, p6, p7, p8⟩ := e11 pr hp
          rw [p6] at hpend
          simp at hpend
        | none =>
          have hs2 : s2 = br0.stateAfterDispatch := e12 hp
          rw [hs2, e7] at hpend
          rcases List.mem_append.mp hpend with hrl | hnew
          · right; exact hrl
          · left
            apply List.mem_append_left
            obtain ⟨q, hqmem, hqeq⟩ := List.mem_map.mp hnew
            rw [← hqeq]
            exact hdis q (List.mem_of_mem_filter hqmem)

/-! ### The batch planner -/

theorem mkRequests_length (data : Dict) :
    ∀ (cids : List ℤ) (i : ℕ), (mkRequests data i cids).length = cids.length := by
  intro cids
  induction cids with
  | nil => intro i; rfl
  | cons c rest ih => intro i; simp [mkRequests, ih]

theorem mkRequests_idx_ge (data : Dict) :
    ∀ (cids : List ℤ) (i : ℕ) (r : Request), r ∈ mkRequests data i cids → i ≤ r.idx := by
  intro cids
  induction cids with
  | nil => intro i r h; simp [mkRequests] at h
  | cons c rest ih =>
    intro i r h
    rcases List.mem_cons.mp h with rfl | h
    · simp [mkRequest]
    · exact le_trans (Nat.le_succ i) (ih (i + 1) r h)

theorem mkRequests_count_le_one (data : Dict) (req : Request) :
    ∀ (cids : List ℤ) (i : ℕ), reqCount req (mkRequests data i cids) ≤ 1 := by
  intro cids
  induction cids with
  | nil => intro i; simp [mkRequests, reqCount]
  | cons c rest ih =>
    intro i
    rw [mkRequests, reqCount, List.countP_cons]
    by_cases h : mkRequest data i c == req
    · have hreq : req = mkRequest data i c := (eq_of_beq h).symm
      have hrest : (mkRequests data (i + 1) rest).countP (fun r => r == req) = 0 := by
        apply List.countP_eq_zero.mpr
        intro r hr
        have hidx : i + 1 ≤ r.idx := mkRequests_idx_ge data rest (i + 1) r hr
        simp only [beq_iff_eq]
        intro hcontra
        rw [hcontra, hreq] at hidx
        simp [mkRequest] at hidx
      rw [← reqCount, reqCount, hrest]
      simp [h]
    · have := ih (i + 1)
      rw [reqCount] at this
      simp [h]
      exact this

theorem mkRequests_mem_data (data : Dict) :
    ∀ (cids : List ℤ) (i : ℕ) (r : Request), r ∈ mkRequests data i cids →
      ∃ cid ∈ cids, r.data = dictSet data "chat_id" (Val.int cid) := by
  intro cids
  induction cids with
  | nil => intro i r h; simp [mkRequests] at h
  | cons c rest ih =>
    intro i r h
    rcases List.mem_cons.mp h with rfl | h
    · exact ⟨c, List.mem_cons_self c rest, rfl⟩
    · obtain ⟨cid, hmem, hdata⟩ := ih (i + 1) r h
      exact ⟨cid, List.mem_cons_of_mem c hmem, hdata⟩

/-- The requests the planner emits, over all batches in order: one per
recipient, in input order, regardless of the batch size. -/
theorem createBatches_flatten (data : Dict) (B : ℤ) :
    ∀ (cids : List ℤ) (i : ℕ) (acc : List Request),
      (createSendBatchesAux data B cids i acc).flatten =
        acc ++ mkRequests data i cids := by
  intro cids
  induction cids with
  | nil =>
    intro i acc
    by_cases h : acc = [] <;>
      simp [createSendBatchesAux, mkRequests, h]
  | cons cid rest ih =>
    intro i acc
    rw [createSendBatchesAux]
    by_cases hyield : ((acc ++ [mkRequest data i cid]).length : ℤ) ≥ B
    · rw [if_pos hyield, List.flatten_cons, ih (i + 1) [], mkRequests]
      simp
    · rw [if_neg hyield, ih (i + 1) (acc ++ [mkRequest data i cid]), mkRequests]
      simp

/-- With a non-positive batch size, `len(batch) >= batch_size` holds
after every append, so the planner yields one singleton batch per
recipient and never raises. -/
theorem createBatches_nonpos (data : Dict) (B : ℤ) (hB : B ≤ 0) :
    ∀ (cids : List ℤ) (i : ℕ),
      createSendBatchesAux data B cids i [] =
        (mkRequests data i cids).map (fun r => [r]) := by
  intro cids
  induction cids with
  | nil => intro i; simp [createSendBatchesAux, mkRequests]
  | cons cid rest ih =>
    intro i
    rw [createSendBatchesAux]
    have hyield : (([] ++ [mkRequest data i cid]).length : ℤ) ≥ B := by
      simp
      omega
    rw [if_pos hyield, ih (i + 1)]
    simp [mkRequests]

/-- Reference chunking function: the first `b` elements, then the
chunks of the rest, with enough fuel to terminate. -/
def chunksF (b : ℕ) : ℕ → List Request → List (List Request)
  | _, [] => []
  | 0, _ :: _ => []
  | fuel + 1, x :: xs => ((x :: xs).take b) :: chunksF b fuel ((x :: xs).drop b)

theorem chunksF_nil (b fuel : ℕ) : chunksF b fuel [] = [] := by
  cases fuel <;> rfl

theorem chunksF_step (b fuel : ℕ) (l : List Request) (h : l ≠ []) :
    chunksF b (fuel + 1) l = l.take b :: chunksF b fuel (l.drop b) := by
  cases l with
  | nil => exact absurd rfl h
  | cons x xs => rfl

/-- The planner is the chunking function when the batch size is
positive. -/
theorem aux_eq_chunksF (data : Dict) (B : ℤ) (hB : 0 < B) :
    ∀ (cids : List ℤ) (i : ℕ) (acc : List Request) (fuel : ℕ),
      (acc.length : ℤ) < B →
      acc.length + cids.length ≤ fuel →
      createSendBatchesAux data B cids i acc =
        chunksF B.toNat fuel (acc ++ mkRequests data i cids) := by
  intro cids
  induction cids with
  | nil =>
    intro i acc fuel hacc hfuel
    rw [createSendBatchesAux, mkRequests, List.append_nil]
    by_cases h : acc = []
    · subst h
      simp [chunksF_nil]
    · rw [if_neg (by simpa [List.isEmpty_iff] using h)]
      have hlen : 0 < acc.length := List.length_pos.mpr h
      have hleb : acc.length ≤ B.toNat := by omega
      cases fuel with
      | zero => omega
      | succ f =>
        rw [chunksF_step _ _ _ h, List.take_all_of_le hleb,
          List.drop_eq_nil_of_le hleb, chunksF_nil]
  | cons cid rest ih =>
    intro i acc fuel hacc hfuel
    rw [createSendBatchesAux]
    have hacclt : acc.length < B.toNat := by omega
    by_cases hyield : ((acc ++ [mkRequest data i cid]).length : ℤ) ≥ B
    · rw [if_pos hyield]
      have hlen : (acc ++ [mkRequest data i cid]).length = B.toNat := by
        simp only [List.length_append, List.length_singleton]
        simp at hyield
        omega
      cases fuel with
      | zero => simp at hfuel
      | succ f =>
        have hassoc : acc ++ mkRequest data i cid :: mkRequests data (i + 1) rest =
            (acc ++ [mkRequest data i cid]) ++ mkRequests data (i + 1) rest := by
          simp
        rw [mkRequests, hassoc]
        have hne : (acc ++ [mkRequest data i cid]) ++ mkRequests data (i + 1) rest ≠ [] := by
          simp
        rw [chunksF_step _ _ _ hne]
        have htake : ((acc ++ [mkRequest data i cid]) ++
            mkRequests data (i + 1) rest).take B.toNat = acc ++ [mkRequest data i cid] := by
          rw [← hlen]
          exact List.take_left _ _
        have hdrop : ((acc ++ [mkRequest data i cid]) ++
            mkRequests data (i + 1) rest).drop B.toNat = mkRequests data (i + 1) rest := by
          rw [← hlen]
          exact List.drop_left _ _
        rw [htake, hdrop, ih (i + 1) [] f (by simpa using hB)
          (by simp at hfuel ⊢; omega)]
        simp
    · rw [if_neg hyield]
      have hacc2 : (((acc ++ [mkRequest data i cid]).length : ℕ) : ℤ) < B :=
        lt_of_not_ge hyield
      have hfuel2 : (acc ++ [mkRequest data i cid]).length + rest.length ≤ fuel := by
        simp at hfuel ⊢
        omega
      rw [ih (i + 1) (acc ++ [mkRequest data i cid]) fuel hacc2 hfuel2, mkRequests]
      congr 1
      simp

theorem chunksF_ne_nil (b fuel : ℕ) (l : List Request)
    (hl : l ≠ []) (hf : l.length ≤ fuel) : chunksF b fuel l ≠ [] := by
  cases l with
  | nil => exact absurd rfl hl
  | cons x xs =>
    cases fuel with
    | zero => simp at hf
    | succ f => simp [chunksF]

theorem chunksF_flatten (b : ℕ) (hb : 0 < b) :
    ∀ (fuel : ℕ) (l : List Request), l.length ≤ fuel →
      (chunksF b fuel l).flatten = l := by
  intro fuel
  induction fuel with
  | zero =>
    intro l hf
    have : l = [] := List.length_eq_zero.mp (by omega)
    subst this
    simp [chunksF_nil]
  | succ f ih =>
    intro l hf
    by_cases hl : l = []
    · subst hl; simp [chunksF_nil]
    · rw [chunksF_step _ _ _ hl, List.flatten_cons,
        ih (l.drop b) (by rw [List.length_drop]; omega),
        List.take_append_drop]

theorem chunksF_length (b : ℕ) (hb : 0 < b) :
    ∀ (fuel : ℕ) (l : List Request), l.length ≤ fuel →
      (chunksF b fuel l).length = (l.length + b - 1) / b := by
  intro fuel
  induction fuel with
  | zero =>
    intro l hf
    have hnil : l = [] := List.length_eq_zero.mp (by omega)
    subst hnil
    have h0 : (0 + b - 1) / b = 0 := Nat.div_eq_of_lt (by omega)
    rw [chunksF_nil]
    simp only [List.length_nil]
    omega
  | succ f ih =>
    intro l hf
    by_cases hl : l = []
    · subst hl
      have h0 : (0 + b - 1) / b = 0 := Nat.div_eq_of_lt (by omega)
      rw [chunksF_nil]
      simp only [List.length_nil]
      omega
    · have hpos : 0 < l.length := List.length_pos.mpr hl
      rw [chunksF_step _ _ _ hl, List.length_cons,
        ih (l.drop b) (by rw [List.length_drop]; omega), List.length_drop]
      by_cases hle : l.length ≤ b
      · have h1 : l.length - b = 0 := by omega
        rw [h1]
        have h2 : (0 + b - 1) / b = 0 := Nat.div_eq_of_lt (by omega)
        have h3 : (l.length + b - 1) / b = 1 :=
          Nat.div_eq_of_lt_le (by omega) (by omega)
        omega
      · have h1 : l.length - b + b - 1 = l.length - 1 := by omega
        have h2 : l.length + b - 1 = (l.length - 1) + b := by omega
        rw [h1, h2, Nat.add_div_right _ hb]

theorem chunksF_dropLast (b : ℕ) (hb : 0 < b) :
    ∀ (fuel : ℕ) (l : List Request), l.length ≤ fuel →
      ∀ c ∈ (chunksF b fuel l).dropLast, c.length = b := by
  intro fuel
  induction fuel with
  | zero =>
    intro l hf c hc
    have : l = [] := List.length_eq_zero.mp (by omega)
    subst this
    simp [chunksF_nil] at hc
  | succ f ih =>
    intro l hf c hc
    by_cases hl : l = []
    · subst hl; simp [chunksF_nil] at hc
    · rw [chunksF_step _ _ _ hl] at hc
      by_cases hdrop : l.drop b = []
      · rw [hdrop, chunksF_nil] at hc
        simp at hc
      · have hfd : (l.drop b).length ≤ f := by rw [List.length_drop]; omega
        obtain ⟨c1, ch, hch⟩ := List.exists_cons_of_ne_nil
          (chunksF_ne_nil b f (l.drop b) hdrop hfd)
        rw [hch, List.dropLast_cons₂] at hc
        rcases List.mem_cons.mp hc with rfl | hc2
        · have hbl : b ≤ l.length := by
            by_contra hcon
            exact hdrop (List.drop_eq_nil_of_le (by omega))
          rw [List.length_take]
          omega
        · have := ih (l.drop b) hfd c
          rw [hch] at this
          exact this hc2

theorem chunksF_getLast (b : ℕ) (hb : 0 < b) :
    ∀ (fuel : ℕ) (l : List Request) (c : List Request), l.length ≤ fuel →
      (chunksF b fuel l).getLast? = some c →
      c.length = if l.length % b = 0 then b else l.length % b := by
  intro fuel
  induction fuel with
  | zero =>
    intro l c hf hlast
    have : l = [] := List.length_eq_zero.mp (by omega)
    subst this
    rw [chunksF_nil] at hlast
    simp at hlast
  | succ f ih =>
    intro l c hf hlast
    by_cases hl : l = []
    · subst hl; rw [chunksF_nil] at hlast; simp at hlast
    · have hpos : 0 < l.length := List.length_pos.mpr hl
      rw [chunksF_step _ _ _ hl] at hlast
      by_cases hdrop : l.drop b = []
      · rw [hdrop, chunksF_nil] at hlast
        have hle : l.length ≤ b := by
          by_contra hcon
          have : (l.drop b).length = 0 := by rw [hdrop]; rfl
          rw [List.length_drop] at this
          omega
        simp only [List.getLast?_singleton, Option.some.injEq] at hlast
        subst hlast
        rw [List.length_take, min_eq_right hle]
        by_cases heq : l.length = b
        · rw [heq]
          simp [Nat.mod_self]
        · have hlt : l.length < b := by omega
          rw [Nat.mod_eq_of_lt hlt, if_neg (by omega)]
      · have hfd : (l.drop b).length ≤ f := by rw [List.length_drop]; omega
        obtain ⟨c1, ch, hch⟩ := List.exists_cons_of_ne_nil
          (chunksF_ne_nil b f (l.drop b) hdrop hfd)
        rw [hch, List.getLast?_cons_cons] at hlast
        have hbl : b ≤ l.length := by
          by_contra hcon
          exact hdrop (List.drop_eq_nil_of_le (by omega))
        have hrec := ih (l.drop b) c hfd (by rw [hch]; exact hlast)
        rw [List.length_drop] at hrec
        have hmod : (l.length - b) % b = l.length % b := by
          conv_rhs => rw [← Nat.sub_add_cancel hbl]
          rw [Nat.add_mod_right]
        rw [hmod] at hrec
        exact hrec

/-! ### Concrete attempts used in witnesses and counterexamples -/

/-- A 200 response with a working audit sink. -/
def okAttempt : Attempt := .resp ⟨200, none, 0⟩ false

/-- A non-429 error response. -/
def failAttempt : Attempt := .resp ⟨400, some 400, 0⟩ false

/-- A 429 response carrying `retry_after = r`, with a working sink. -/
def rlAttempt (r : ℚ) : Attempt := .resp ⟨429, some 429, r⟩ false

/-! ### Claims -/

/-- C2: for every ordered recipient list of length `n` and every
positive batch size `B`, `_create_send_batches` produces `⌈n/B⌉`
batches (`(n + B - 1) / B` in natural division); every batch except
possibly the last has exactly `B` requests; the last batch has
`n mod B` requests (`B` when `n mod B = 0`); the concatenation of the
batches is exactly the per-recipient requests in input order (so order
is preserved within and across batches); and an empty input produces
zero batches. -/
theorem c2_batch_planner (data : Dict) (chatIds : List ℤ) (batchSize : ℤ)
    (hB : 0 < batchSize) (L : List (List Request))
    (hL : L = createSendBatches data chatIds batchSize) :
    L.length = (chatIds.length + batchSize.toNat - 1) / batchSize.toNat ∧
    (∀ b ∈ L.dropLast, b.length = batchSize.toNat) ∧
    (∀ c, L.getLast? = some c →
      c.length = if chatIds.length % batchSize.toNat = 0
        then batchSize.toNat else chatIds.length % batchSize.toNat) ∧
    L.flatten = mkRequests data 0 chatIds ∧
    (chatIds = [] → L = []) := by
  subst hL
  have hb : 0 < batchSize.toNat := by omega
  have hflen : (mkRequests data 0 chatIds).length = chatIds.length :=
    mkRequests_length data chatIds 0
  have heq : createSendBatches data chatIds batchSize =
      chunksF batchSize.toNat chatIds.length (mkRequests data 0 chatIds) := by
    rw [createSendBatches, aux_eq_chunksF data batchSize hB chatIds 0 [] chatIds.length
      (by simpa using hB) (by simp)]
    simp
  refine ⟨?_, ?_, ?_, ?_, ?_⟩
  · rw [heq, chunksF_length _ hb _ _ (le_of_eq hflen), hflen]
  · intro c hc
    rw [heq] at hc
    exact chunksF_dropLast _ hb _ _ (le_of_eq hflen) c hc
  · intro c hc
    rw [heq] at hc
    have := chunksF_getLast _ hb _ _ c (le_of_eq hflen) hc
    rw [hflen] at this
    exact this
  · rw [heq]
    exact chunksF_flatten _ hb _ _ (le_of_eq hflen)
  · intro h
    subst h
    rw [heq]
    simp [mkRequests, chunksF_nil]

theorem c2_batch_planner_witness :
    (0 : ℤ) < 2 ∧
    ((createSendBatches [] [1, 2, 3, 4, 5] 2).length =
        (([1, 2, 3, 4, 5] : List ℤ).length + (2 : ℤ).toNat - 1) / (2 : ℤ).toNat ∧
      (∀ b ∈ (createSendBatches [] [1, 2, 3, 4, 5] 2).dropLast,
        b.length = (2 : ℤ).toNat) ∧
      (∀ c, (createSendBatches [] [1, 2, 3, 4, 5] 2).getLast? = some c →
        c.length = if ([1, 2, 3, 4, 5] : List ℤ).length % (2 : ℤ).toNat = 0
          then (2 : ℤ).toNat else ([1, 2, 3, 4, 5] : List ℤ).length % (2 : ℤ).toNat) ∧
      (createSendBatches [] [1, 2, 3, 4, 5] 2).flatten =
        mkRequests [] 0 [1, 2, 3, 4, 5] ∧
      (([1, 2, 3, 4, 5] : List ℤ) = [] →
        createSendBatches [] [1, 2, 3, 4, 5] 2 = [])) :=
  ⟨by norm_num, c2_batch_planner [] [1, 2, 3, 4, 5] 2 (by norm_num) _ rfl⟩

/-- C8 counterexample: the source never validates `batch_size` — there
is no `raise` in `__init__` or `_create_send_batches` — so a run
configured with `batch_size = 0` does not surface any configuration
error; the planner emits one singleton batch per recipient and both
recipients are attempted (two sends happen) and delivered.  This
contradicts the claim that a non-positive `batchSize` is a hard
failure raised before any recipient is served. -/
theorem c8_nonpos_counterexample :
    createSendBatches [] [1, 2] 0 =
      [[⟨0, [("chat_id", Val.int 1)]⟩], [⟨1, [("chat_id", Val.int 2)]⟩]] ∧
    (runModel false (fun _ => okAttempt) (fun _ => (0, 0)) 0 1 [] [1, 2]).delivered = 2 ∧
    (runModel false (fun _ => okAttempt) (fun _ => (0, 0)) 0 1 [] [1, 2]).notDelivered = 0 ∧
    (allSends (runModel false (fun _ => okAttempt) (fun _ => (0, 0)) 0 1 [] [1, 2]).trace).length = 2 := by
  decide

/-- C8 amended: a non-positive `batchSize` is accepted silently: since
`len(batch) >= batch_size` is then true after every append, the planner
yields one singleton batch per recipient (and the run proceeds to serve
every recipient normally, one per batch). -/
theorem c8_nonpos_amended (data : Dict) (chatIds : List ℤ) (batchSize : ℤ)
    (hB : batchSize ≤ 0) :
    createSendBatches data chatIds batchSize =
      (mkRequests data 0 chatIds).map (fun r => [r]) := by
  rw [createSendBatches]
  exact createBatches_nonpos data batchSize hB chatIds 0

theorem c8_nonpos_amended_witness :
    (-3 : ℤ) ≤ 0 ∧
    createSendBatches [] [5, 6] (-3) =
      (mkRequests [] 0 [5, 6]).map (fun r => [r]) :=
  ⟨by norm_num, c8_nonpos_amended [] [5, 6] (-3) (by norm_num)⟩

/-- C10: for every dispatched group of requests — an original batch or
a retry wave, both of which go through `_process_batch_messages` — every
send is classified as exactly one of delivered / permanent failure /
rate limited (the three counts partition the group), and the delivered
count returned, plus the non-429 failure count returned, plus the
number of requests newly appended to `_rate_limited_messages` during
the group, equals the size of the group. -/
theorem c10_group_partition (useMongo : Bool) (oracle : ℕ → Attempt)
    (group : List Request) (s : SenderState) (k : ℕ) (w : WaveResult)
    (hw : w = processBatchMessages useMongo oracle group s k) :
    w.sends.map Prod.fst = group ∧
    w.delivered = countSucc useMongo w.sends ∧
    w.non429 = countPF useMongo w.sends ∧
    w.state.rateLimited = s.rateLimited ++ rlReqs useMongo w.sends ∧
    countSucc useMongo w.sends + countPF useMongo w.sends +
      count429 useMongo w.sends = group.length ∧
    w.delivered + w.non429 +
      (w.state.rateLimited.length - s.rateLimited.length) = group.length := by
  subst hw
  obtain ⟨h1, h2, h3, h4, h5, h6, h7⟩ := processBatch_spec useMongo oracle group s k
  have hlen : (processBatchMessages useMongo oracle group s k).sends.length =
      group.length := by
    have := congrArg List.length h1
    rw [List.length_map] at this
    exact this
  have hpart := counts_partition useMongo
    (processBatchMessages useMongo oracle group s k).sends
  have hrl : (processBatchMessages useMongo oracle group s k).state.rateLimited.length =
      s.rateLimited.length +
        count429 useMongo (processBatchMessages useMongo oracle group s k).sends := by
    rw [h5, List.length_append, rlReqs_length]
  refine ⟨h1, h3, h4, h5, by omega, by omega⟩

theorem c10_group_partition_witness :
    (processBatchMessages false
        (fun j => if j = 0 then okAttempt else if j = 1 then failAttempt else rlAttempt 4)
        (mkRequests [] 0 [1, 2, 3]) ⟨[], 0⟩ 0).sends.map Prod.fst =
      mkRequests [] 0 [1, 2, 3] ∧
    (processBatchMessages false
        (fun j => if j = 0 then okAttempt else if j = 1 then failAttempt else rlAttempt 4)
        (mkRequests [] 0 [1, 2, 3]) ⟨[], 0⟩ 0).delivered =
      countSucc false (processBatchMessages false
        (fun j => if j = 0 then okAttempt else if j = 1 then failAttempt else rlAttempt 4)
        (mkRequests [] 0 [1, 2, 3]) ⟨[], 0⟩ 0).sends ∧
    (processBatchMessages false
        (fun j => if j = 0 then okAttempt else if j = 1 then failAttempt else rlAttempt 4)
        (mkRequests [] 0 [1, 2, 3]) ⟨[], 0⟩ 0).non429 =
      countPF false (processBatchMessages false
        (fun j => if j = 0 then okAttempt else if j = 1 then failAttempt else rlAttempt 4)
        (mkRequests [] 0 [1, 2, 3]) ⟨[], 0⟩ 0).sends ∧
    (processBatchMessages false
        (fun j => if j = 0 then okAttempt else if j = 1 then failAttempt else rlAttempt 4)
        (mkRequests [] 0 [1, 2, 3]) ⟨[], 0⟩ 0).state.rateLimited =
      (⟨[], 0⟩ : SenderState).rateLimited ++
        rlReqs false (processBatchMessages false
          (fun j => if j = 0 then okAttempt else if j = 1 then failAttempt else rlAttempt 4)
          (mkRequests [] 0 [1, 2, 3]) ⟨[], 0⟩ 0).sends ∧
    countSucc false (processBatchMessages false
        (fun j => if j = 0 then okAttempt else if j = 1 then failAttempt else rlAttempt 4)
        (mkRequests [] 0 [1, 2, 3]) ⟨[], 0⟩ 0).sends +
      countPF false (processBatchMessages false
        (fun j => if j = 0 then okAttempt else if j = 1 then failAttempt else rlAttempt 4)
        (mkRequests [] 0 [1, 2, 3]) ⟨[], 0⟩ 0).sends +
      count429 false (processBatchMessages false
        (fun j => if j = 0 then okAttempt else if j = 1 then failAttempt else rlAttempt 4)
        (mkRequests [] 0 [1, 2, 3]) ⟨[], 0⟩ 0).sends =
      (mkRequests [] 0 [1, 2, 3]).length ∧
    (processBatchMessages false
        (fun j => if j = 0 then okAttempt else if j = 1 then failAttempt else rlAttempt 4)
        (mkRequests [] 0 [1, 2, 3]) ⟨[], 0⟩ 0).delivered +
      (processBatchMessages false
        (fun j => if j = 0 then okAttempt else if j = 1 then failAttempt else rlAttempt 4)
        (mkRequests [] 0 [1, 2, 3]) ⟨[], 0⟩ 0).non429 +
      ((processBatchMessages false
        (fun j => if j = 0 then okAttempt else if j = 1 then failAttempt else rlAttempt 4)
        (mkRequests [] 0 [1, 2, 3]) ⟨[], 0⟩ 0).state.rateLimited.length -
        (⟨[], 0⟩ : SenderState).rateLimited.length) =
      (mkRequests [] 0 [1, 2, 3]).length :=
  c10_group_partition false
    (fun j => if j = 0 then okAttempt else if j = 1 then failAttempt else rlAttempt 4)
    (mkRequests [] 0 [1, 2, 3]) ⟨[], 0⟩ 0 _ rfl

/-- C1 counterexample: one recipient whose single attempt is
`RateLimited` with the (non-negative) retry-after value 0.  The 429
handler sets `_global_retry_after = max(0.0, 0) = 0`, so the
`if self._global_retry_after > 0` gate never fires, the pending
recipient is never re-sent and never counted: the run returns `(0, 0)`
although the recipient list has length 1, refuting
`delivered + notDelivered == n` for non-negative retry-after values. -/
theorem c1_tally_counterexample :
    ¬ ((runModel false (fun _ => rlAttempt 0) (fun _ => (0, 0)) 25 (11/10) [] [5]).delivered +
        (runModel false (fun _ => rlAttempt 0) (fun _ => (0, 0)) 25 (11/10) [] [5]).notDelivered =
        ([5] : List ℤ).length) := by
  decide

/-- C1 amended: for every run that completes, over every recipient list
and every mix of outcomes in which each `RateLimited` outcome carries a
*strictly positive* retry-after, the run returns
`delivered + notDelivered = n`.  (With retry-after 0 — which the spec
admits as "non-negative" — the recipient is dropped from both tallies,
see the counterexample.) -/
theorem c1_tally_amended (useMongo : Bool) (oracle : ℕ → Attempt)
    (durs : ℕ → ℚ × ℚ) (batchSize : ℤ) (minInterval : ℚ) (data : Dict)
    (chatIds : List ℤ) (R : RunResult)
    (hR : R = runModel useMongo oracle durs batchSize minInterval data chatIds)
    (hpos : ∀ j r, classify useMongo (oracle j) = .rateLimited r → 0 < r) :
    R.delivered + R.notDelivered = chatIds.length := by
  subst hR
  have hsum := exec_sum useMongo oracle durs minInterval hpos
    (createSendBatches data chatIds batchSize) ⟨[], 0⟩ 0 0 0 0 rfl (le_refl 0)
  have hflat : (createSendBatches data chatIds batchSize).flatten =
      mkRequests data 0 chatIds := by
    rw [createSendBatches, createBatches_flatten]
    simp
  rw [hflat, mkRequests_length] at hsum
  simpa [runModel] using hsum

theorem c1_tally_amended_witness :
    (∀ (j : ℕ) (r : ℚ), classify false ((fun _ => okAttempt) j) = .rateLimited r → 0 < r) ∧
    (runModel false (fun _ => okAttempt) (fun _ => (0, 0)) 25 1 [] [1, 2]).delivered +
      (runModel false (fun _ => okAttempt) (fun _ => (0, 0)) 25 1 [] [1, 2]).notDelivered =
      ([1, 2] : List ℤ).length :=
  ⟨fun j r h => by simp [okAttempt, classify] at h,
    c1_tally_amended false (fun _ => okAttempt) (fun _ => (0, 0)) 25 1 [] [1, 2] _ rfl
      (fun j r h => by simp [okAttempt, classify] at h)⟩

/-- C3 counterexample: one recipient, the API responds with status 200
(success), but the audit-sink insert raises.  Because `insert_one` sits
inside the same `try` block as the post, the exception is caught by the
generic `except` and `_send_message` returns `(False, False)`: the run
counts the recipient as not delivered — `(0, 1)` instead of the
`(1, 0)` the claim requires — so a sink failure does change the
outcome classification and the final tally. -/
theorem c3_sink_counterexample :
    (runModel true (fun _ => .resp ⟨200, none, 0⟩ true) (fun _ => (0, 0)) 25 1 [] [7]).delivered = 0 ∧
    (runModel true (fun _ => .resp ⟨200, none, 0⟩ true) (fun _ => (0, 0)) 25 1 [] [7]).notDelivered = 1 := by
  decide

/-- C3 amended: a failure of the audit-sink insert is caught by the
generic `except` and never propagates to the caller, but it does affect
the outcome: whatever the API response was — success, permanent
failure, or 429 — the attempt is classified as a non-429 failure
(`(False, False)`), the sender state is untouched (in particular a 429
response is not registered for retry), and the recipient is therefore
counted in `notDelivered`. -/
theorem c3_sink_failure_behavior (s : SenderState) (req : Request) (r : ApiResponse) :
    sendMessage true s req (.resp r true) = (s, false, false) ∧
    classify true (.resp r true) = .permanentFailure := by
  constructor <;> rfl

/-- C9: every request ever sent during a run (original dispatch or
retry) carries as its payload a fresh copy of the shared base payload
with the recipient identifier set: its dict equals
`dictSet data "chat_id" cid` for some recipient `cid` of the run, its
`"chat_id"` entry is that recipient, and its other keys read exactly as
in the base payload.  The base payload itself is never modified:
`dictSet` builds a new association list (the model of `data.copy()`
followed by item assignment), leaving `data` to denote the same
key/value pairs before and after every send and retry. -/
theorem c9_payload_copied (useMongo : Bool) (oracle : ℕ → Attempt)
    (durs : ℕ → ℚ × ℚ) (batchSize : ℤ) (minInterval : ℚ) (data : Dict)
    (chatIds : List ℤ) (R : RunResult) (t : Request × Attempt × Bool)
    (hR : R = runModel useMongo oracle durs batchSize minInterval data chatIds)
    (ht : t ∈ allSends R.trace) :
    ∃ cid ∈ chatIds,
      t.1.data = dictSet data "chat_id" (Val.int cid) ∧
      dictGet t.1.data "chat_id" = some (Val.int cid) ∧
      ∀ key, key ≠ "chat_id" → dictGet t.1.data key = dictGet data key := by
  subst hR
  simp only [runModel] at ht
  have hprov := exec_prov useMongo oracle durs minInterval
    (createSendBatches data chatIds batchSize) ⟨[], 0⟩ 0 0 0 0 t ht
  have hmem : t.1 ∈ mkRequests data 0 chatIds := by
    rcases hprov with hfl | hpend
    · rw [createSendBatches, createBatches_flatten] at hfl
      simpa using hfl
    · simp at hpend
  obtain ⟨cid, hcid, hdata⟩ := mkRequests_mem_data data chatIds 0 t.1 hmem
  refine ⟨cid, hcid, hdata, ?_, ?_⟩
  · rw [hdata]
    exact dictGet_dictSet_self data "chat_id" (Val.int cid)
  · intro key hkey
    rw [hdata]
    exact dictGet_dictSet_ne "chat_id" key (Val.int cid) hkey data

theorem c9_payload_copied_witness :
    ((⟨0, [("text", Val.str "hi"), ("chat_id", Val.int 1)]⟩, okAttempt, false) : Request × Attempt × Bool) ∈
      allSends (runModel false (fun _ => okAttempt) (fun _ => (0, 0)) 25 1
        [("text", Val.str "hi")] [1, 2]).trace ∧
    ∃ cid ∈ ([1, 2] : List ℤ),
      ((⟨0, [("text", Val.str "hi"), ("chat_id", Val.int 1)]⟩, okAttempt, false) :
          Request × Attempt × Bool).1.data =
        dictSet [("text", Val.str "hi")] "chat_id" (Val.int cid) ∧
      dictGet ((⟨0, [("text", Val.str "hi"), ("chat_id", Val.int 1)]⟩, okAttempt, false) :
          Request × Attempt × Bool).1.data "chat_id" = some (Val.int cid) ∧
      ∀ key, key ≠ "chat_id" →
        dictGet ((⟨0, [("text", Val.str "hi"), ("chat_id", Val.int 1)]⟩, okAttempt, false) :
            Request × Attempt × Bool).1.data key =
          dictGet [("text", Val.str "hi")] key :=
  ⟨by decide,
    c9_payload_copied false (fun _ => okAttempt) (fun _ => (0, 0)) 25 1
      [("text", Val.str "hi")] [1, 2] _
      (⟨0, [("text", Val.str "hi"), ("chat_id", Val.int 1)]⟩, okAttempt, false) rfl (by decide)⟩

/-- Oracle for the C4 counterexample run (`batch_size = 1`, recipients
`[10, 20]`): call 0 is recipient 10's dispatch (429, retry-after 2),
call 1 is its retry (429 again, retry-after 7 — a second-time rate
limit, which leaves `_global_retry_after = 7` behind), call 2 is
recipient 20's dispatch (429, retry-after 1), call 3 its retry. -/
def c4Oracle : ℕ → Attempt
  | 0 => rlAttempt 2
  | 1 => rlAttempt 7
  | 2 => rlAttempt 1
  | _ => okAttempt

/-- C4 counterexample: after batch 2's dispatch the accumulated
`_global_retry_after` is positive, so the pipeline pauses — but for 7
seconds, the leftover from the *previous* batch's retry wave, not for
1, the maximum retry-after observed in batch 2 itself
(`foldGlobal useMongo 0 dispatchSends` folds `max` over exactly the
retry-after values of the batch's rate-limited sends).  This refutes
"pauses … for exactly the maximum retry-after value observed in that
batch": `_global_retry_after` is reset before a retry wave but not
after it, so a second-time 429 during the wave leaks into the next
batch's pause. -/
theorem c4_pause_counterexample :
    ((runModel false c4Oracle (fun _ => (0, 0)) 1 0 [] [10, 20]).trace.get? 1).map
        (fun br => (br.pauseRetry.map PauseRec.pauseLen,
          foldGlobal false 0 br.dispatchSends)) = some (some 7, 1) ∧
    (7 : ℚ) ≠ 1 := by
  constructor
  · decide
  · norm_num

/-- C4 amended: for every batch whose post-dispatch
`_global_retry_after` is positive, the pipeline pauses exactly once,
for exactly that accumulated value — which is the `max`-fold of the
batch's own observed retry-after values on top of the value carried in
from before the batch (0 unless a preceding retry wave saw a
second-time 429); when the carried-in value is 0 this is exactly the
maximum retry-after observed in that batch.  It then re-dispatches
exactly the snapshot of the pending rate-limited requests, with their
original payload dicts, and the wave's outcomes are tallied before the
next batch starts (the recorded wave belongs to this trace record). -/
theorem c4_pause_and_retry (useMongo : Bool) (oracle : ℕ → Attempt)
    (durs : ℕ → ℚ × ℚ) (batchSize : ℤ) (minInterval : ℚ) (data : Dict)
    (chatIds : List ℤ) (R : RunResult) (i : ℕ) (br : BatchRecord) (pr : PauseRec)
    (hR : R = runModel useMongo oracle durs batchSize minInterval data chatIds)
    (hbr : R.trace.get? i = some br)
    (hpr : br.pauseRetry = some pr) :
    pr.pauseLen = br.stateAfterDispatch.globalRetryAfter ∧
    br.stateAfterDispatch.globalRetryAfter =
      foldGlobal useMongo br.stateBefore.globalRetryAfter br.dispatchSends ∧
    (br.stateBefore.globalRetryAfter = 0 →
      pr.pauseLen = foldGlobal useMongo 0 br.dispatchSends) ∧
    pr.snapshot = br.stateAfterDispatch.rateLimited ∧
    pr.waveSends.map Prod.fst = pr.snapshot ∧
    pr.d2 = countSucc useMongo pr.waveSends ∧
    pr.nd2 = countPF useMongo pr.waveSends + count429 useMongo pr.waveSends := by
  subst hR
  have hmem : br ∈ (runModel useMongo oracle durs batchSize minInterval data chatIds).trace :=
    List.get?_mem hbr
  simp only [runModel] at hmem
  obtain ⟨o1, o2, o3, o4, o5, o6, o7⟩ :=
    exec_trace_sound useMongo oracle durs minInterval
      (createSendBatches data chatIds batchSize) ⟨[], 0⟩ 0 0 0 0 br hmem
  obtain ⟨q1, q2, q3, q4, q5⟩ := o6 pr hpr
  refine ⟨q1, o4, ?_, q2, q3, q4, q5⟩
  intro h0
  rw [q1, o4, h0]

theorem c4_pause_and_retry_witness :
    (runModel false c4Oracle (fun _ => (0, 0)) 25 0 [] [1]).trace.get? 0 =
      some (runModel false c4Oracle (fun _ => (0, 0)) 25 0 [] [1]).trace.headI ∧
    (runModel false c4Oracle (fun _ => (0, 0)) 25 0 [] [1]).trace.headI.pauseRetry =
      some ⟨2, [⟨0, [("chat_id", Val.int 1)]⟩],
        [(⟨0, [("chat_id", Val.int 1)]⟩, rlAttempt 7)], 0, 1⟩ ∧
    ((2 : ℚ) =
      (runModel false c4Oracle (fun _ => (0, 0)) 25 0 [] [1]).trace.headI.stateAfterDispatch.globalRetryAfter ∧
    (runModel false c4Oracle (fun _ => (0, 0)) 25 0 [] [1]).trace.headI.stateAfterDispatch.globalRetryAfter =
      foldGlobal false
        (runModel false c4Oracle (fun _ => (0, 0)) 25 0 [] [1]).trace.headI.stateBefore.globalRetryAfter
        (runModel false c4Oracle (fun _ => (0, 0)) 25 0 [] [1]).trace.headI.dispatchSends ∧
    ((runModel false c4Oracle (fun _ => (0, 0)) 25 0 [] [1]).trace.headI.stateBefore.globalRetryAfter = 0 →
      (2 : ℚ) = foldGlobal false 0
        (runModel false c4Oracle (fun _ => (0, 0)) 25 0 [] [1]).trace.headI.dispatchSends) ∧
    [⟨0, [("chat_id", Val.int 1)]⟩] =
      (runModel false c4Oracle (fun _ => (0, 0)) 25 0 [] [1]).trace.headI.stateAfterDispatch.rateLimited ∧
    ([(⟨0, [("chat_id", Val.int 1)]⟩, rlAttempt 7)] : List (Request × Attempt)).map Prod.fst =
      [⟨0, [("chat_id", Val.int 1)]⟩] ∧
    (0 : ℕ) = countSucc false [(⟨0, [("chat_id", Val.int 1)]⟩, rlAttempt 7)] ∧
    (1 : ℕ) = countPF false [(⟨0, [("chat_id", Val.int 1)]⟩, rlAttempt 7)] +
      count429 false [(⟨0, [("chat_id", Val.int 1)]⟩, rlAttempt 7)]) :=
  ⟨rfl, by decide,
    c4_pause_and_retry false c4Oracle (fun _ => (0, 0)) 25 0 [] [1] _ 0
      (runModel false c4Oracle (fun _ => (0, 0)) 25 0 [] [1]).trace.headI
      ⟨2, [⟨0, [("chat_id", Val.int 1)]⟩],
        [(⟨0, [("chat_id", Val.int 1)]⟩, rlAttempt 7)], 0, 1⟩
      rfl rfl (by decide)⟩

/-- Oracle for the C6 counterexample run (`batch_size = 1`, recipients
`[10, 20]`): recipient 10 is rate limited (retry-after 2), its retry is
rate limited again (retry-after 7), recipient 20 is delivered. -/
def c6Oracle : ℕ → Attempt
  | 0 => rlAttempt 2
  | 1 => rlAttempt 7
  | _ => okAttempt

/-- C6 counterexample: batch 2's dispatch contains zero rate-limited
sends (`count429 = 0`), yet a pause-and-retry block still runs after
it (`pauseRetry.isSome = true`): the second-time 429 observed during
batch 1's retry wave left `_global_retry_after = 7` behind, and it is
only reset *before* a wave, never after.  This refutes "no rate-limit
pause and no retry dispatch occur … regardless of what happened in
earlier batches or earlier retry cycles". -/
theorem c6_skip_counterexample :
    ((runModel false c6Oracle (fun _ => (0, 0)) 1 0 [] [10, 20]).trace.get? 1).map
      (fun br => (count429 false br.dispatchSends, br.pauseRetry.isSome)) =
      some (0, true) := by
  decide

/-- C6 amended: a batch with zero rate-limited sends skips the pause
and the retry dispatch entirely — provided the `_global_retry_after`
carried into the batch is not positive (it is positive exactly when the
previous batch's retry wave observed a second-time 429, in which case a
pause of that leftover value still occurs). -/
theorem c6_skip_amended (useMongo : Bool) (oracle : ℕ → Attempt)
    (durs : ℕ → ℚ × ℚ) (batchSize : ℤ) (minInterval : ℚ) (data : Dict)
    (chatIds : List ℤ) (R : RunResult) (i : ℕ) (br : BatchRecord)
    (hR : R = runModel useMongo oracle durs batchSize minInterval data chatIds)
    (hbr : R.trace.get? i = some br)
    (h429 : count429 useMongo br.dispatchSends = 0)
    (hcarry : br.stateBefore.globalRetryAfter ≤ 0) :
    br.pauseRetry = none := by
  subst hR
  have hmem : br ∈ (runModel useMongo oracle durs batchSize minInterval data chatIds).trace :=
    List.get?_mem hbr
  simp only [runModel] at hmem
  obtain ⟨o1, o2, o3, o4, o5, o6, o7⟩ :=
    exec_trace_sound useMongo oracle durs minInterval
      (createSendBatches data chatIds batchSize) ⟨[], 0⟩ 0 0 0 0 br hmem
  have hglob : br.stateAfterDispatch.globalRetryAfter =
      br.stateBefore.globalRetryAfter := by
    rw [o4, foldGlobal_no429 useMongo br.dispatchSends _ h429]
  have hnotpos : ¬ 0 < br.stateAfterDispatch.globalRetryAfter := by
    rw [hglob]
    exact not_lt.mpr hcarry
  cases hp : br.pauseRetry with
  | none => rfl
  | some pr =>
    exact absurd (o5.mp (by rw [hp]; rfl)) hnotpos

theorem c6_skip_amended_witness :
    (runModel false (fun _ => okAttempt) (fun _ => (0, 0)) 25 0 [] [1]).trace.get? 0 =
      some (runModel false (fun _ => okAttempt) (fun _ => (0, 0)) 25 0 [] [1]).trace.headI ∧
    count429 false
      (runModel false (fun _ => okAttempt) (fun _ => (0, 0)) 25 0 [] [1]).trace.headI.dispatchSends = 0 ∧
    (runModel false (fun _ => okAttempt) (fun _ => (0, 0)) 25 0 [] [1]).trace.headI.stateBefore.globalRetryAfter ≤ 0 ∧
    (runModel false (fun _ => okAttempt) (fun _ => (0, 0)) 25 0 [] [1]).trace.headI.pauseRetry = none :=
  ⟨rfl, by decide, by decide,
    c6_skip_amended false (fun _ => okAttempt) (fun _ => (0, 0)) 25 0 [] [1] _ 0
      (runModel false (fun _ => okAttempt) (fun _ => (0, 0)) 25 0 [] [1]).trace.headI
      rfl rfl (by decide) (by decide)⟩

/-- C7: for every batch record of every run, the recorded pacing sleep
equals `max(0, t0 + minInterval − now)` where `t0` is the wall-clock
time recorded at that batch's own start (before dispatch) and `now` is
the time after the batch and any pause-and-retry cycle completed; it is
never negative; it is zero whenever the batch plus its rate-limit pause
already took at least `minInterval`; and it is exactly the sleep
applied before the next batch starts (the next record's slept amount,
and the next batch's start time is `now` plus that sleep). -/
theorem c7_pacing (useMongo : Bool) (oracle : ℕ → Attempt)
    (durs : ℕ → ℚ × ℚ) (batchSize : ℤ) (minInterval : ℚ) (data : Dict)
    (chatIds : List ℤ) (R : RunResult) (i : ℕ) (br : BatchRecord)
    (hR : R = runModel useMongo oracle durs batchSize minInterval data chatIds)
    (hbr : R.trace.get? i = some br) :
    br.sleepAfter = max (br.tStart + minInterval - br.tEnd) 0 ∧
    0 ≤ br.sleepAfter ∧
    (minInterval ≤ br.tEnd - br.tStart → br.sleepAfter = 0) ∧
    (R.trace.get? (i + 1)).all
      (fun br2 => br2.sleptBefore == br.sleepAfter &&
        br2.tStart == br.tEnd + br.sleepAfter) = true := by
  subst hR
  have hmem : br ∈ (runModel useMongo oracle durs batchSize minInterval data chatIds).trace :=
    List.get?_mem hbr
  simp only [runModel] at hmem hbr ⊢
  obtain ⟨o1, o2, o3, o4, o5, o6, o7⟩ :=
    exec_trace_sound useMongo oracle durs minInterval
      (createSendBatches data chatIds batchSize) ⟨[], 0⟩ 0 0 0 0 br hmem
  have hnonneg : 0 ≤ br.sleepAfter := by
    rw [o7]
    exact le_max_right _ 0
  refine ⟨o7, hnonneg, ?_, ?_⟩
  · intro hwork
    rw [o7]
    apply max_eq_right
    linarith
  · cases hnext : (execBatchesAux useMongo oracle durs minInterval
        (createSendBatches data chatIds batchSize) ⟨[], 0⟩ 0 0 0 0).2.2.get? (i + 1) with
    | none => rfl
    | some br2 =>
      obtain ⟨hslept, hstart⟩ :=
        exec_chain useMongo oracle durs minInterval
          (createSendBatches data chatIds batchSize) ⟨[], 0⟩ 0 0 0 0 i br br2 hbr hnext
      have hs : br2.sleptBefore = br.sleepAfter := by
        rw [hslept]
        split_ifs with h
        · rfl
        · linarith
      simp [Option.all, hs, hstart, beq_iff_eq]

theorem c7_pacing_witness :
    (runModel false (fun _ => okAttempt) (fun _ => (1, 0)) 1 5 [] [1, 2]).trace.get? 0 =
      some (runModel false (fun _ => okAttempt) (fun _ => (1, 0)) 1 5 [] [1, 2]).trace.headI ∧
    ((runModel false (fun _ => okAttempt) (fun _ => (1, 0)) 1 5 [] [1, 2]).trace.headI.sleepAfter =
      max ((runModel false (fun _ => okAttempt) (fun _ => (1, 0)) 1 5 [] [1, 2]).trace.headI.tStart + 5 -
        (runModel false (fun _ => okAttempt) (fun _ => (1, 0)) 1 5 [] [1, 2]).trace.headI.tEnd) 0 ∧
    0 ≤ (runModel false (fun _ => okAttempt) (fun _ => (1, 0)) 1 5 [] [1, 2]).trace.headI.sleepAfter ∧
    ((5 : ℚ) ≤ (runModel false (fun _ => okAttempt) (fun _ => (1, 0)) 1 5 [] [1, 2]).trace.headI.tEnd -
        (runModel false (fun _ => okAttempt) (fun _ => (1, 0)) 1 5 [] [1, 2]).trace.headI.tStart →
      (runModel false (fun _ => okAttempt) (fun _ => (1, 0)) 1 5 [] [1, 2]).trace.headI.sleepAfter = 0) ∧
    ((runModel false (fun _ => okAttempt) (fun _ => (1, 0)) 1 5 [] [1, 2]).trace.get? 1).all
      (fun br2 => br2.sleptBefore ==
          (runModel false (fun _ => okAttempt) (fun _ => (1, 0)) 1 5 [] [1, 2]).trace.headI.sleepAfter &&
        br2.tStart ==
          (runModel false (fun _ => okAttempt) (fun _ => (1, 0)) 1 5 [] [1, 2]).trace.headI.tEnd +
            (runModel false (fun _ => okAttempt) (fun _ => (1, 0)) 1 5 [] [1, 2]).trace.headI.sleepAfter) = true) :=
  ⟨rfl,
    c7_pacing false (fun _ => okAttempt) (fun _ => (1, 0)) 1 5 [] [1, 2] _ 0
      (runModel false (fun _ => okAttempt) (fun _ => (1, 0)) 1 5 [] [1, 2]).trace.headI
      rfl rfl⟩

/-! ### Outcome bookkeeping for the single-retry analysis -/

theorem isRate_not_isDelivered (o : Outcome) (h : o.isRate = true) :
    o.isDelivered = false := by
  cases o <;> simp_all [Outcome.isRate, Outcome.isDelivered]

theorem isRate_not_isPermFail (o : Outcome) (h : o.isRate = true) :
    o.isPermFail = false := by
  cases o <;> simp_all [Outcome.isRate, Outcome.isPermFail]

theorem delPred_false_of_rate (useMongo : Bool) (t : Request × Attempt × Bool)
    (h : (classify useMongo t.2.1).isRate = true) : delPred useMongo t = false := by
  rw [delPred]
  exact isRate_not_isDelivered _ h

theorem ndPred_false_dispatch_rate (useMongo : Bool) (t : Request × Attempt × Bool)
    (hret : t.2.2 = false) (h : (classify useMongo t.2.1).isRate = true) :
    ndPred useMongo t = false := by
  rw [ndPred, hret, isRate_not_isPermFail _ h]
  simp

theorem ndPred_retry_eq (useMongo : Bool) (t : Request × Attempt × Bool)
    (hret : t.2.2 = true) : ndPred useMongo t = !(delPred useMongo t) := by
  cases hc : classify useMongo t.2.1 <;>
    simp [ndPred, delPred, hc, hret, Outcome.isPermFail, Outcome.isRate,
      Outcome.isDelivered]

/-- Pure counting core of the single-retry analysis, over an arbitrary
tagged send list `A`: if a request has exactly one dispatch send, at
most one retry send, and its dispatch send was rate limited, then it is
attempted at most twice; a delivered retry contributes exactly one
delivered send and no not-delivered send, and a failed retry (permanent
failure or second-time 429) contributes exactly one not-delivered send
and no delivered send. -/
theorem retry_counts_of (useMongo : Bool) (req : Request)
    (A : List (Request × Attempt × Bool))
    (hd : A.countP (fun t => t.1 == req && !t.2.2) = 1)
    (hw : A.countP (fun t => t.1 == req && t.2.2) ≤ 1)
    (hfirst : A.countP
      (fun t => t.1 == req && !t.2.2 && !(classify useMongo t.2.1).isRate) = 0) :
    A.countP (fun t => t.1 == req) ≤ 2 ∧
    (A.countP (fun t => t.1 == req && t.2.2 && delPred useMongo t) = 1 →
      A.countP (fun t => t.1 == req && delPred useMongo t) = 1 ∧
      A.countP (fun t => t.1 == req && ndPred useMongo t) = 0) ∧
    (A.countP (fun t => t.1 == req && t.2.2 && !(delPred useMongo t)) = 1 →
      A.countP (fun t => t.1 == req && delPred useMongo t) = 0 ∧
      A.countP (fun t => t.1 == req && ndPred useMongo t) = 1) := by
  have hF4 : ∀ t ∈ A, t.1 == req → t.2.2 = false →
      (classify useMongo t.2.1).isRate = true := by
    intro t ht h1 h2
    have hz := List.countP_eq_zero.mp hfirst t ht
    simpa [h1, h2] using hz
  have hz1 : A.countP (fun t => t.1 == req && delPred useMongo t && !t.2.2) = 0 := by
    apply List.countP_eq_zero.mpr
    intro t ht
    by_cases h1 : t.1 == req
    · by_cases h2 : t.2.2
      · simp [h1, h2]
      · have hrate := hF4 t ht h1 (by simpa using h2)
        simp [h1, h2, delPred_false_of_rate useMongo t hrate]
    · simp [h1]
  have hz2 : A.countP (fun t => t.1 == req && ndPred useMongo t && !t.2.2) = 0 := by
    apply List.countP_eq_zero.mpr
    intro t ht
    by_cases h1 : t.1 == req
    · by_cases h2 : t.2.2
      · simp [h1, h2]
      · have hrate := hF4 t ht h1 (by simpa using h2)
        simp [h1, h2, ndPred_false_dispatch_rate useMongo t (by simpa using h2) hrate]
    · simp [h1]
  have hsplit_all : A.countP (fun t => t.1 == req) =
      A.countP (fun t => t.1 == req && t.2.2) +
        A.countP (fun t => t.1 == req && !t.2.2) :=
    countP_split A _ _
  have hsplit_del : A.countP (fun t => t.1 == req && delPred useMongo t) =
      A.countP (fun t => t.1 == req && delPred useMongo t && t.2.2) +
        A.countP (fun t => t.1 == req && delPred useMongo t && !t.2.2) :=
    countP_split A _ _
  have hsplit_nd : A.countP (fun t => t.1 == req && ndPred useMongo t) =
      A.countP (fun t => t.1 == req && ndPred useMongo t && t.2.2) +
        A.countP (fun t => t.1 == req && ndPred useMongo t && !t.2.2) :=
    countP_split A _ _
  have hsplit_ret : A.countP (fun t => t.1 == req && t.2.2) =
      A.countP (fun t => t.1 == req && t.2.2 && delPred useMongo t) +
        A.countP (fun t => t.1 == req && t.2.2 && !(delPred useMongo t)) :=
    countP_split A _ _
  have hcongr_del : A.countP (fun t => t.1 == req && delPred useMongo t && t.2.2) =
      A.countP (fun t => t.1 == req && t.2.2 && delPred useMongo t) :=
    List.countP_congr (fun t _ => by
      by_cases h1 : t.1 == req <;> by_cases h2 : t.2.2 <;>
        by_cases h3 : delPred useMongo t <;> simp [h1, h2, h3])
  have hcongr_nd : A.countP (fun t => t.1 == req && ndPred useMongo t && t.2.2) =
      A.countP (fun t => t.1 == req && t.2.2 && !(delPred useMongo t)) :=
    List.countP_congr (fun t _ => by
      by_cases h2 : t.2.2
      · rw [ndPred_retry_eq useMongo t h2]
        by_cases h1 : t.1 == req <;> by_cases h3 : delPred useMongo t <;>
          simp [h1, h2, h3]
      · simp [h2])
  refine ⟨by omega, ?_, ?_⟩
  · intro hdel
    constructor <;> omega
  · intro hnd
    constructor <;> omega

/-- C5: every recipient whose first attempt is rate limited receives at
most one retry attempt and is never attempted a third time.  A
recipient is identified with its request object (the fresh
`data_with_id` dict created for its position); its dispatch sends are
the untagged entries of the whole-run send list and its retry sends the
tagged ones.  The hypotheses say the request belongs to the run's
batches (it then has exactly one dispatch send) and that no dispatch
send of it is classified other than rate limited (its first attempt was
429).  Conclusions: it has at most one retry send and at most two sends
in total; if its retry is delivered it contributes exactly one send to
the delivered tally and none to the not-delivered tally; if its retry
fails (permanent failure or second-time 429) it contributes exactly one
send to the not-delivered tally and none to the delivered tally; and
the run's returned tallies are exactly the counts of those
contributions over all sends. -/
theorem c5_single_retry (useMongo : Bool) (oracle : ℕ → Attempt)
    (durs : ℕ → ℚ × ℚ) (batchSize : ℤ) (minInterval : ℚ) (data : Dict)
    (chatIds : List ℤ) (R : RunResult) (req : Request)
    (hR : R = runModel useMongo oracle durs batchSize minInterval data chatIds)
    (hreq : req ∈ (createSendBatches data chatIds batchSize).flatten)
    (hfirst : (allSends R.trace).countP
      (fun t => t.1 == req && !t.2.2 && !(classify useMongo t.2.1).isRate) = 0) :
    (allSends R.trace).countP (fun t => t.1 == req && t.2.2) ≤ 1 ∧
    (allSends R.trace).countP (fun t => t.1 == req) ≤ 2 ∧
    ((allSends R.trace).countP
        (fun t => t.1 == req && t.2.2 && delPred useMongo t) = 1 →
      (allSends R.trace).countP (fun t => t.1 == req && delPred useMongo t) = 1 ∧
      (allSends R.trace).countP (fun t => t.1 == req && ndPred useMongo t) = 0) ∧
    ((allSends R.trace).countP
        (fun t => t.1 == req && t.2.2 && !(delPred useMongo t)) = 1 →
      (allSends R.trace).countP (fun t => t.1 == req && delPred useMongo t) = 0 ∧
      (allSends R.trace).countP (fun t => t.1 == req && ndPred useMongo t) = 1) ∧
    R.delivered = (allSends R.trace).countP (delPred useMongo) ∧
    R.notDelivered = (allSends R.trace).countP (ndPred useMongo) := by
  subst hR
  simp only [runModel] at hfirst ⊢
  have hflat : (createSendBatches data chatIds batchSize).flatten =
      mkRequests data 0 chatIds := by
    rw [createSendBatches, createBatches_flatten]
    simp
  have hmemreq : req ∈ mkRequests data 0 chatIds := by
    rw [← hflat]
    exact hreq
  have hrc : reqCount req ((createSendBatches data chatIds batchSize).flatten) = 1 := by
    rw [hflat]
    refine le_antisymm (mkRequests_count_le_one data req chatIds 0) ?_
    rw [reqCount]
    exact List.countP_pos_iff.mpr ⟨req, hmemreq, by simp⟩
  have hd := exec_dcount useMongo oracle durs minInterval req
    (createSendBatches data chatIds batchSize) ⟨[], 0⟩ 0 0 0 0
  rw [hrc] at hd
  have hw := exec_wcount useMongo oracle durs minInterval req
    (createSendBatches data chatIds batchSize) ⟨[], 0⟩ 0 0 0 0
  rw [hrc] at hw
  have hwle : (allSends (execBatchesAux useMongo oracle durs minInterval
      (createSendBatches data chatIds batchSize) ⟨[], 0⟩ 0 0 0 0).2.2).countP
        (fun t => t.1 == req && t.2.2) ≤ 1 := by
    have hnil : reqCount req ((⟨[], 0⟩ : SenderState).rateLimited) = 0 := by
      simp [reqCount]
    omega
  obtain ⟨hc1, hc2, hc3⟩ := retry_counts_of useMongo req _ hd hwle hfirst
  obtain ⟨htd, htnd⟩ := exec_totals useMongo oracle durs minInterval
    (createSendBatches data chatIds batchSize) ⟨[], 0⟩ 0 0 0 0
  exact ⟨hwle, hc1, hc2, hc3, htd, htnd⟩

/-- Oracle for the C5 witness run: the single recipient's dispatch is
rate limited (retry-after 3) and its retry is delivered. -/
def c5Oracle : ℕ → Attempt
  | 0 => rlAttempt 3
  | _ => okAttempt

theorem c5_single_retry_witness :
    (⟨0, [("chat_id", Val.int 1)]⟩ : Request) ∈
      (createSendBatches [] [1] 25).flatten ∧
    (allSends (runModel false c5Oracle (fun _ => (0, 0)) 25 0 [] [1]).trace).countP
      (fun t => t.1 == (⟨0, [("chat_id", Val.int 1)]⟩ : Request) && !t.2.2 &&
        !(classify false t.2.1).isRate) = 0 ∧
    ((allSends (runModel false c5Oracle (fun _ => (0, 0)) 25 0 [] [1]).trace).countP
        (fun t => t.1 == (⟨0, [("chat_id", Val.int 1)]⟩ : Request) && t.2.2) ≤ 1 ∧
      (allSends (runModel false c5Oracle (fun _ => (0, 0)) 25 0 [] [1]).trace).countP
        (fun t => t.1 == (⟨0, [("chat_id", Val.int 1)]⟩ : Request)) ≤ 2 ∧
      ((allSends (runModel false c5Oracle (fun _ => (0, 0)) 25 0 [] [1]).trace).countP
          (fun t => t.1 == (⟨0, [("chat_id", Val.int 1)]⟩ : Request) && t.2.2 &&
            delPred false t) = 1 →
        (allSends (runModel false c5Oracle (fun _ => (0, 0)) 25 0 [] [1]).trace).countP
          (fun t => t.1 == (⟨0, [("chat_id", Val.int 1)]⟩ : Request) &&
            delPred false t) = 1 ∧
        (allSends (runModel false c5Oracle (fun _ => (0, 0)) 25 0 [] [1]).trace).countP
          (fun t => t.1 == (⟨0, [("chat_id", Val.int 1)]⟩ : Request) &&
            ndPred false t) = 0) ∧
      ((allSends (runModel false c5Oracle (fun _ => (0, 0)) 25 0 [] [1]).trace).countP
          (fun t => t.1 == (⟨0, [("chat_id", Val.int 1)]⟩ : Request) && t.2.2 &&
            !(delPred false t)) = 1 →
        (allSends (runModel false c5Oracle (fun _ => (0, 0)) 25 0 [] [1]).trace).countP
          (fun t => t.1 == (⟨0, [("chat_id", Val.int 1)]⟩ : Request) &&
            delPred false t) = 0 ∧
        (allSends (runModel false c5Oracle (fun _ => (0, 0)) 25 0 [] [1]).trace).countP
          (fun t => t.1 == (⟨0, [("chat_id", Val.int 1)]⟩ : Request) &&
            ndPred false t) = 1) ∧
      (runModel false c5Oracle (fun _ => (0, 0)) 25 0 [] [1]).delivered =
        (allSends (runModel false c5Oracle (fun _ => (0, 0)) 25 0 [] [1]).trace).countP
          (delPred false) ∧
      (runModel false c5Oracle (fun _ => (0, 0)) 25 0 [] [1]).notDelivered =
        (allSends (runModel false c5Oracle (fun _ => (0, 0)) 25 0 [] [1]).trace).countP
          (ndPred false)) :=
  ⟨by decide, by decide,
    c5_single_retry false c5Oracle (fun _ => (0, 0)) 25 0 [] [1] _
      ⟨0, [("chat_id", Val.int 1)]⟩ rfl (by decide) (by decide)⟩
